import Mathlib

/-!
simple-ringbuffer: a shallow embedding of `src/ringbuffer.c`

The C program keeps a byte ring buffer in a caller-supplied memory region:
a control header (`size`, `offset_head`, `offset_tail`, `mutex`) followed by
the data bytes.  This file embeds `ringbuffer_create`, `ringbuffer_write`
and `ringbuffer_read` as Lean functions over an explicit state and proves
properties of them.

Modelling conventions.

* `unsigned` values are natural numbers; every `+` and `-` of the C code is
  taken modulo `2^32` (`uadd`, `usub`).  The `int` result of
  `ringbuffer_read` is an integer obtained by the usual two's complement
  conversion (`to_int`).
* A pointer to caller memory (`data` of write) is the list of bytes found
  at that address; pointer arithmetic `p + k` is `List.drop k`.  The bytes
  that `ringbuffer_read` stores through `buffer` are returned as a list, in
  the order of their destination addresses.
* Accesses outside an array are undefined in C.  To keep the functions
  total, a byte read outside a list is `0` and a byte stored outside the
  data region is dropped.  No statement below gives the value of such a
  byte: where a read runs past the end of the data region, what is stated is
  the count it returns, the number of bytes it delivers and the offsets.
* The mutex is created by `pthread_mutex_init(.., NULL)` and is not
  recursive: `pthread_mutex_lock` by the thread that holds it never returns.
  A call therefore ends in one of two ways (`Outcome`): it returns a value, or
  the thread stays blocked in `ringbuffer_lock`.  There is one calling thread;
  `held` says whether it holds the mutex when it makes a call.  The calls of
  the application are made with `held = false`, the recursive calls of
  ringbuffer.c:114 and ringbuffer.c:164 with `held = true`.  The field `mutex`
  records the operations issued on the mutex so far.
-/

set_option linter.unusedVariables false

namespace Ringbuf

/-- One byte of memory (`unsigned char`). -/
abbrev Byte := UInt8

/-- Addition of two `unsigned` values. -/
def uadd (a b : Nat) : Nat := (a + b) % 4294967296

/-- Subtraction of two `unsigned` values. -/
def usub (a b : Nat) : Nat := (a + (4294967296 - b % 4294967296)) % 4294967296

/-- Conversion of an `unsigned` value to `int`. -/
def to_int (x : Nat) : Int :=
  if x % 4294967296 < 2147483648 then ((x % 4294967296 : Nat) : Int)
  else ((x % 4294967296 : Nat) : Int) - 4294967296

/-- Conversion of an `int` value to `unsigned`. -/
def to_unsigned (x : Int) : Nat := (x % 4294967296).toNat

/-- The error code of `ringbuffer.h`. -/
def RB_ERROR_CANT_READ : Int := -1

/-- An operation issued on the mutex. -/
inductive MutexOp where
  | lock
  | unlock
  deriving DecidableEq, Repr

/-- The `ringbuffer_t` of `ringbuffer.h`: the three header words, the mutex
(as the history of the operations issued on it since `pthread_mutex_init`)
and the flexible array member `data`. -/
structure Ringbuffer where
  size : Nat
  offset_head : Nat
  offset_tail : Nat
  mutex : List MutexOp
  data : List Byte
  deriving DecidableEq, Repr

/-- How a call ends: it returns `value` and leaves the buffer `rb`, or the
calling thread blocks for ever in `pthread_mutex_lock`, the buffer being `rb`
at that moment. -/
inductive Outcome (α : Type) where
  | returned (value : α) (rb : Ringbuffer)
  | blocked (rb : Ringbuffer)
  deriving DecidableEq, Repr

/-- The buffer when the call has returned or has blocked. -/
def Outcome.state {α : Type} : Outcome α → Ringbuffer
  | Outcome.returned _ rb => rb
  | Outcome.blocked rb => rb

/-- The call `memcpy(&mem[off], src, n)`: the `n` bytes at `src` replace
`mem[off .. off + n)`. -/
def memcpy_to (mem : List Byte) (off : Nat) (src : List Byte) (n : Nat) : List Byte :=
  (List.range mem.length).map
    (fun i => if off ≤ i ∧ i < off + n then src.getD (i - off) 0 else mem.getD i 0)

/-- The bytes that `memcpy(dst, &mem[off], n)` stores at `dst`. -/
def memcpy_from (mem : List Byte) (off : Nat) (n : Nat) : List Byte :=
  (List.range n).map (fun i => mem.getD (off + i) 0)

/-- `ringbuffer_lock` (ringbuffer.c:25-28): `pthread_mutex_lock` on the
non-recursive mutex.  The operation is recorded; if the calling thread holds
the mutex already, the call does not return. -/
def ringbuffer_lock (held : Bool) (rb : Ringbuffer) : Outcome Unit :=
  if held then Outcome.blocked { rb with mutex := rb.mutex ++ [MutexOp.lock] }
  else Outcome.returned () { rb with mutex := rb.mutex ++ [MutexOp.lock] }

/-- `ringbuffer_unlock` (ringbuffer.c:30-33); afterwards the thread does not
hold the mutex. -/
def ringbuffer_unlock (rb : Ringbuffer) : Ringbuffer :=
  { rb with mutex := rb.mutex ++ [MutexOp.unlock] }

/-- `ringbuffer_create` (ringbuffer.c:50-62).  `hdr` is `sizeof(ringbuffer_t)`,
which depends on the platform's `pthread_mutex_t`; the data region is what
follows the header in the caller's memory. -/
def ringbuffer_create (hdr : Nat) (buffer : List Byte) (size : Nat) : Ringbuffer :=
  { size := usub size hdr
    offset_head := 0
    offset_tail := 0
    mutex := []
    data := buffer.drop hdr }

/-- The values `free`, `contiguous` and `cutoff` computed in the first
critical section of `ringbuffer_write` (ringbuffer.c:75-90). -/
structure Space where
  free : Nat
  contiguous : Nat
  cutoff : Nat
  deriving DecidableEq, Repr

/-- The branch of ringbuffer.c:75-90 (the assignments of lines 81-82 store the
value `0` that both offsets already hold). -/
def write_space (rb : Ringbuffer) : Space :=
  if rb.offset_head = rb.offset_tail ∧ rb.offset_head = 0 then
    { free := rb.size, contiguous := rb.size, cutoff := 0 }
  else if rb.offset_head < rb.offset_tail then
    { free := uadd (usub rb.size rb.offset_tail) rb.offset_head
      contiguous := usub rb.size rb.offset_tail
      cutoff := rb.offset_head }
  else
    { free := usub rb.offset_head rb.offset_tail
      contiguous := usub rb.offset_head rb.offset_tail
      cutoff := 0 }

/-- `ringbuffer_write` (ringbuffer.c:64-120), called by a thread that holds
the mutex (`held = true`) or does not.  The local `ret` is an `int` that is
converted back to the `unsigned` result, which gives the `unsigned` value
that was stored. -/
def ringbuffer_write (held : Bool) (data : List Byte) (size : Nat) (rb : Ringbuffer) :
    Outcome Nat :=
  match hl : ringbuffer_lock held rb with
  | Outcome.blocked b => Outcome.blocked b
  | Outcome.returned _ rb0 =>
    let sp := write_space rb0
    let rb1 := ringbuffer_unlock rb0
    if sp.free = 0 then
      Outcome.returned 0 rb1
    else
      let size := if size > sp.free then sp.free else size
      match ringbuffer_lock false rb1 with
      | Outcome.blocked b => Outcome.blocked b
      | Outcome.returned _ rb2 =>
        if sp.cutoff = 0 then
          let rb3 := { rb2 with
            data := memcpy_to rb2.data rb2.offset_tail data size
            offset_tail := uadd rb2.offset_tail size }
          Outcome.returned size (ringbuffer_unlock rb3)
        else
          let rb3 := { rb2 with
            data := memcpy_to rb2.data rb2.offset_tail data sp.contiguous
            offset_tail := 0 }
          match ringbuffer_write true (data.drop sp.contiguous) sp.cutoff rb3 with
          | Outcome.blocked b => Outcome.blocked b
          | Outcome.returned r rb4 =>
            Outcome.returned (uadd sp.contiguous r) (ringbuffer_unlock rb4)
termination_by (if held then 0 else 1)
decreasing_by
  cases held
  · simp
  · simp [ringbuffer_lock] at hl

/-- `ringbuffer_read` (ringbuffer.c:122-173), called by a thread that holds
the mutex (`held = true`) or does not.  The value is the `int` result and the
bytes stored through `buffer`. -/
def ringbuffer_read (held : Bool) (size : Nat) (rb : Ringbuffer) :
    Outcome (Int × List Byte) :=
  if size > rb.size then
    Outcome.returned (RB_ERROR_CANT_READ, []) rb
  else
    match hl : ringbuffer_lock held rb with
    | Outcome.blocked b => Outcome.blocked b
    | Outcome.returned _ rb1 =>
      if rb1.offset_head < rb1.offset_tail then
        let size := if uadd rb1.offset_head size ≤ rb1.offset_tail then size
          else usub rb1.offset_tail rb1.offset_head
        let out := memcpy_from rb1.data rb1.offset_head size
        let head := uadd rb1.offset_head size
        let rb2 := { rb1 with
          offset_head := head
          offset_tail := if head < rb1.offset_tail then rb1.offset_tail else head }
        Outcome.returned (to_int size, out) (ringbuffer_unlock rb2)
      else if rb1.offset_head > rb1.offset_tail ∧ uadd rb1.offset_head size ≤ rb1.size then
        let out := memcpy_from rb1.data rb1.offset_head size
        let rb2 := { rb1 with
          offset_head := if uadd rb1.offset_head size < rb1.size
            then uadd rb1.offset_head size else 0 }
        Outcome.returned (to_int size, out) (ringbuffer_unlock rb2)
      else if rb1.offset_head > rb1.offset_tail ∧ uadd rb1.offset_head size > rb1.size then
        let tmp_size := usub rb1.size rb1.offset_head
        let out := memcpy_from rb1.data rb1.offset_head tmp_size
        let rb2 := { rb1 with offset_head := 0 }
        match ringbuffer_read true (usub size tmp_size) rb2 with
        | Outcome.blocked b => Outcome.blocked b
        | Outcome.returned r rb3 =>
          Outcome.returned (to_int (uadd tmp_size (to_unsigned r.1)), out ++ r.2)
            (ringbuffer_unlock rb3)
      else
        Outcome.returned (0, []) (ringbuffer_unlock rb1)
termination_by (if held then 0 else 1)
decreasing_by
  cases held
  · simp
  · simp [ringbuffer_lock] at hl

/-- The free space as section 4.2 step 1 of the specification words it:
the capacity if `head = tail = 0`, `capacity - tail + head` if `head < tail`,
and `head - tail` otherwise. -/
def spec_free (rb : Ringbuffer) : Nat :=
  if rb.offset_head = 0 ∧ rb.offset_tail = 0 then rb.size
  else if rb.offset_head < rb.offset_tail then rb.size - rb.offset_tail + rb.offset_head
  else rb.offset_head - rb.offset_tail

/-- The states in which the single thread can make a call: the result of
`ringbuffer_create` over a region of `size` bytes that holds the header
(`hdr ≤ size < 2^32`), and the state left by any call of `ringbuffer_write` or
`ringbuffer_read` that returned.  The index is the capacity. -/
inductive Reachable : Nat → Ringbuffer → Prop where
  | create (hdr : Nat) (buffer : List Byte) (size : Nat)
      (hlen : buffer.length = size) (hhdr : hdr ≤ size) (hsize : size < 4294967296) :
      Reachable (size - hdr) (ringbuffer_create hdr buffer size)
  | write (c : Nat) (rb : Ringbuffer) (data : List Byte) (size : Nat)
      (r : Nat) (rb2 : Ringbuffer) :
      Reachable c rb → ringbuffer_write false data size rb = Outcome.returned r rb2 →
      Reachable c rb2
  | read (c : Nat) (rb : Ringbuffer) (size : Nat)
      (v : Int × List Byte) (rb2 : Ringbuffer) :
      Reachable c rb → ringbuffer_read false size rb = Outcome.returned v rb2 →
      Reachable c rb2

/-- The shape of a state in single-threaded use: the header words fit an
`unsigned`, the data region has `size` bytes, and `head ≤ tail ≤ size`. -/
def WellFormed (rb : Ringbuffer) : Prop :=
  rb.size < 4294967296 ∧ rb.data.length = rb.size ∧
    rb.offset_head ≤ rb.offset_tail ∧ rb.offset_tail ≤ rb.size

/-- Replays a history of mutex operations for a single thread, starting with
the mutex held or not: `false` as soon as the mutex is acquired while it is
held (where a non-reentrant mutex blocks its own owner). -/
def lock_discipline : Bool → List MutexOp → Bool
  | _, [] => true
  | held, MutexOp.lock :: ops => !held && lock_discipline true ops
  | _, MutexOp.unlock :: ops => lock_discipline false ops

/-- Whether the mutex is held after the operations of a history that
returned. -/
def held_after : Bool → List MutexOp → Bool
  | held, [] => held
  | _, MutexOp.lock :: ops => held_after true ops
  | _, MutexOp.unlock :: ops => held_after false ops

/-- One call of the interface, as made by the single thread. -/
inductive Call where
  | write (data : List Byte) (size : Nat)
  | read (size : Nat)

/-- The bytes that crossed the interface so far: `accepted` is the
concatenation, in call order, of the first `r` source bytes of every write
that returned (`r` its return value); `delivered` is the concatenation of the
bytes that the reads that returned stored at their destinations. -/
structure Transfer where
  accepted : List Byte
  delivered : List Byte

/-- Runs a sequence of calls, each made when the one before has returned, and
records what was transferred.  A call that blocks ends the run: the thread
makes no further call. -/
def run_calls : List Call → Ringbuffer → Transfer → Transfer × Outcome Unit
  | [], rb, t => (t, Outcome.returned () rb)
  | Call.write data size :: cs, rb, t =>
      match ringbuffer_write false data size rb with
      | Outcome.returned r rb2 =>
          run_calls cs rb2 { accepted := t.accepted ++ data.take r, delivered := t.delivered }
      | Outcome.blocked rb2 => (t, Outcome.blocked rb2)
  | Call.read size :: cs, rb, t =>
      match ringbuffer_read false size rb with
      | Outcome.returned v rb2 =>
          run_calls cs rb2 { accepted := t.accepted, delivered := t.delivered ++ v.2 }
      | Outcome.blocked rb2 => (t, Outcome.blocked rb2)

/-- The calls of a run are well-formed: each write that returns has a source
at least as long as the count it returns, each read requests at most the
capacity. -/
def calls_admissible : List Call → Ringbuffer → Prop
  | [], _ => True
  | Call.write data size :: cs, rb =>
      match ringbuffer_write false data size rb with
      | Outcome.returned r rb2 => r ≤ data.length ∧ calls_admissible cs rb2
      | Outcome.blocked _ => True
  | Call.read size :: cs, rb =>
      size ≤ rb.size ∧
        match ringbuffer_read false size rb with
        | Outcome.returned _ rb2 => calls_admissible cs rb2
        | Outcome.blocked _ => True

/-- The unread bytes of a state with `head ≤ tail`: `data[head .. tail)`. -/
def unread (rb : Ringbuffer) : List Byte :=
  memcpy_from rb.data rb.offset_head (rb.offset_tail - rb.offset_head)

/-- The relation between a state and the bytes transferred so far that every
call keeps: the delivered bytes are a leading part of the accepted bytes, and
as long as the buffer is not stuck (`head < tail`, or nothing written yet) the
accepted bytes are the delivered bytes followed by the unread ones. -/
def Fifo (rb : Ringbuffer) (t : Transfer) : Prop :=
  (∃ rest, t.accepted = t.delivered ++ rest) ∧
    (rb.offset_head < rb.offset_tail ∨ rb.offset_tail = 0 →
      t.accepted = t.delivered ++ unread rb)

/-! ### Concrete runs

Each run starts from `ringbuffer_create` over a zeroed region with a 16 byte
header; the states below are the ones the calls produce, written out. -/

/-- A fresh buffer of capacity 10. -/
def fresh10 : Ringbuffer := ringbuffer_create 16 (List.replicate 26 0) 26

/-- A fresh buffer of capacity 4. -/
def fresh4 : Ringbuffer := ringbuffer_create 16 (List.replicate 20 0) 20

/-- A fresh buffer of capacity 6. -/
def fresh6 : Ringbuffer := ringbuffer_create 16 (List.replicate 22 0) 22

/-- Capacity 10 after `write` of 8 bytes. -/
def wrap_s1 : Ringbuffer :=
  { size := 10, offset_head := 0, offset_tail := 8
    mutex := [.lock, .unlock, .lock, .unlock]
    data := [1, 2, 3, 4, 5, 6, 7, 8, 0, 0] }

/-- Then after `read` of 5 bytes. -/
def wrap_s2 : Ringbuffer :=
  { size := 10, offset_head := 5, offset_tail := 8
    mutex := [.lock, .unlock, .lock, .unlock, .lock, .unlock]
    data := [1, 2, 3, 4, 5, 6, 7, 8, 0, 0] }

/-- Then the state in which the `write` of 7 bytes blocks: two bytes copied to
the end of the array, tail reset, the mutex locked a second time while held. -/
def wrap_s3 : Ringbuffer :=
  { size := 10, offset_head := 5, offset_tail := 0
    mutex := [.lock, .unlock, .lock, .unlock, .lock, .unlock,
      .lock, .unlock, .lock, .lock]
    data := [1, 2, 3, 4, 5, 6, 7, 8, 11, 12] }

/-- Capacity 10 after `write` of 5 bytes. -/
def clamp_s1 : Ringbuffer :=
  { size := 10, offset_head := 0, offset_tail := 5
    mutex := [.lock, .unlock, .lock, .unlock]
    data := [1, 2, 3, 4, 5, 0, 0, 0, 0, 0] }

/-- Then after `read` of 2 bytes. -/
def clamp_s2 : Ringbuffer :=
  { size := 10, offset_head := 2, offset_tail := 5
    mutex := [.lock, .unlock, .lock, .unlock, .lock, .unlock]
    data := [1, 2, 3, 4, 5, 0, 0, 0, 0, 0] }

/-- Then the state in which a `write` from the array `21, .., 28` blocks,
whatever length was requested: five bytes copied, tail reset. -/
def clamp_s3 : Ringbuffer :=
  { size := 10, offset_head := 2, offset_tail := 0
    mutex := [.lock, .unlock, .lock, .unlock, .lock, .unlock,
      .lock, .unlock, .lock, .lock]
    data := [1, 2, 3, 4, 5, 21, 22, 23, 24, 25] }

/-- Capacity 4 after `write` of 2 bytes. -/
def drain_s1 : Ringbuffer :=
  { size := 4, offset_head := 0, offset_tail := 2
    mutex := [.lock, .unlock, .lock, .unlock]
    data := [1, 2, 0, 0] }

/-- Then after `read` of 2 bytes. -/
def drain_s2 : Ringbuffer :=
  { size := 4, offset_head := 2, offset_tail := 2
    mutex := [.lock, .unlock, .lock, .unlock, .lock, .unlock]
    data := [1, 2, 0, 0] }

/-- Then after `write` of 1 byte. -/
def drain_s3 : Ringbuffer :=
  { size := 4, offset_head := 2, offset_tail := 2
    mutex := [.lock, .unlock, .lock, .unlock, .lock, .unlock, .lock, .unlock]
    data := [1, 2, 0, 0] }

/-- Then after `read` of 1 byte. -/
def drain_s4 : Ringbuffer :=
  { size := 4, offset_head := 2, offset_tail := 2
    mutex := [.lock, .unlock, .lock, .unlock, .lock, .unlock, .lock, .unlock,
      .lock, .unlock]
    data := [1, 2, 0, 0] }

/-- Capacity 4 after `write` of 4 bytes. -/
def full_s1 : Ringbuffer :=
  { size := 4, offset_head := 0, offset_tail := 4
    mutex := [.lock, .unlock, .lock, .unlock]
    data := [1, 2, 3, 4] }

/-- Then after `read` of 4 bytes. -/
def full_s2 : Ringbuffer :=
  { size := 4, offset_head := 4, offset_tail := 4
    mutex := [.lock, .unlock, .lock, .unlock, .lock, .unlock]
    data := [1, 2, 3, 4] }

/-- Capacity 4 after `write` of 3 bytes. -/
def part_s1 : Ringbuffer :=
  { size := 4, offset_head := 0, offset_tail := 3
    mutex := [.lock, .unlock, .lock, .unlock]
    data := [1, 2, 3, 0] }

/-- Then after `read` of 2 bytes. -/
def reached4 : Ringbuffer :=
  { size := 4, offset_head := 2, offset_tail := 3
    mutex := [.lock, .unlock, .lock, .unlock, .lock, .unlock]
    data := [1, 2, 3, 0] }

/-- Capacity 6 after `write` of 4 bytes. -/
def lock_s1 : Ringbuffer :=
  { size := 6, offset_head := 0, offset_tail := 4
    mutex := [.lock, .unlock, .lock, .unlock]
    data := [1, 2, 3, 4, 0, 0] }

/-- Then after `read` of 1 byte. -/
def lock_s2 : Ringbuffer :=
  { size := 6, offset_head := 1, offset_tail := 4
    mutex := [.lock, .unlock, .lock, .unlock, .lock, .unlock]
    data := [1, 2, 3, 4, 0, 0] }

/-- Then the state in which the `write` of `7, 8, 9` blocks. -/
def lock_s3 : Ringbuffer :=
  { size := 6, offset_head := 1, offset_tail := 0
    mutex := [.lock, .unlock, .lock, .unlock, .lock, .unlock,
      .lock, .unlock, .lock, .lock]
    data := [1, 2, 3, 4, 7, 8] }

/-- A state with `tail < head`, as a second thread could leave it. -/
def lock_r : Ringbuffer :=
  { size := 5, offset_head := 3, offset_tail := 1
    mutex := []
    data := [10, 20, 30, 40, 50] }

/-- The state in which a `read` of 4 bytes from `lock_r` blocks: head reset
for the second copy, the mutex locked a second time while held. -/
def lock_r2 : Ringbuffer :=
  { size := 5, offset_head := 0, offset_tail := 1
    mutex := [.lock, .lock]
    data := [10, 20, 30, 40, 50] }

/-! ### States with a capacity of 2 GiB and more

The data regions and sources are lists of that many bytes; they are only
named, and the statements about them are proved without enumerating them. -/

/-- A data region of `2^31` bytes. -/
def region_2g : List Byte := List.replicate 2147483648 0

/-- A source of `2^31` bytes. -/
def source_2g : List Byte := List.replicate 2147483648 7

/-- A fresh buffer of capacity `2^31`. -/
def big_s0 : Ringbuffer :=
  { size := 2147483648, offset_head := 0, offset_tail := 0
    mutex := []
    data := region_2g }

/-- Capacity `2^31` after `write` of `2^31` bytes. -/
def big_s1 : Ringbuffer :=
  { size := 2147483648, offset_head := 0, offset_tail := 2147483648
    mutex := [.lock, .unlock, .lock, .unlock]
    data := memcpy_to region_2g 0 source_2g 2147483648 }

/-- Then after `read` of `2^31` bytes. -/
def big_s2 : Ringbuffer :=
  { size := 2147483648, offset_head := 2147483648, offset_tail := 2147483648
    mutex := [.lock, .unlock, .lock, .unlock, .lock, .unlock]
    data := memcpy_to region_2g 0 source_2g 2147483648 }

/-- A data region of `2^32 - 1` bytes. -/
def region_4g : List Byte := List.replicate 4294967295 0

/-- A source of `2^32 - 1` bytes. -/
def source_4g : List Byte := List.replicate 4294967295 7

/-- A fresh buffer of capacity `2^32 - 1`. -/
def huge_s0 : Ringbuffer :=
  { size := 4294967295, offset_head := 0, offset_tail := 0
    mutex := []
    data := region_4g }

/-- Capacity `2^32 - 1`, every byte unread. -/
def huge_full : Ringbuffer :=
  { size := 4294967295, offset_head := 0, offset_tail := 4294967295
    mutex := []
    data := region_4g }

/-- Then after `read` of `2^32 - 1` bytes. -/
def huge_full2 : Ringbuffer :=
  { size := 4294967295, offset_head := 4294967295, offset_tail := 4294967295
    mutex := [.lock, .unlock]
    data := region_4g }

/-- Capacity `2^32 - 1`, the last 5 bytes unread. -/
def huge_last5 : Ringbuffer :=
  { size := 4294967295, offset_head := 4294967290, offset_tail := 4294967295
    mutex := []
    data := region_4g }

/-- Then after `read` of 10 bytes. -/
def huge_last5b : Ringbuffer :=
  { size := 4294967295, offset_head := 4, offset_tail := 4294967295
    mutex := [.lock, .unlock]
    data := region_4g }

/-- Capacity `2^32 - 1` with `tail = 0 < head`, one byte before the end of the
array. -/
def huge_wrapped : Ringbuffer :=
  { size := 4294967295, offset_head := 4294967294, offset_tail := 0
    mutex := []
    data := region_4g }

/-- Then after `read` of 10 bytes. -/
def huge_wrapped2 : Ringbuffer :=
  { size := 4294967295, offset_head := 8, offset_tail := 0
    mutex := [.lock, .unlock]
    data := region_4g }

/-- The data region of capacity `2^32 - 1` after the `2^32 - 1` bytes of
`source_4g` were copied to its start. -/
def written_4g : List Byte := memcpy_to region_4g 0 source_4g 4294967295

/-- Capacity `2^32 - 1` after `write` of `2^32 - 1` bytes on the fresh buffer. -/
def huge_w1 : Ringbuffer :=
  { size := 4294967295, offset_head := 0, offset_tail := 4294967295
    mutex := [.lock, .unlock, .lock, .unlock]
    data := written_4g }

/-- Then after `read` of `2^31 - 3` bytes. -/
def huge_w2 : Ringbuffer :=
  { size := 4294967295, offset_head := 2147483645, offset_tail := 4294967295
    mutex := [.lock, .unlock, .lock, .unlock, .lock, .unlock]
    data := written_4g }

/-- Then after a second `read` of `2^31 - 3` bytes: 5 bytes are unread. -/
def huge_w3 : Ringbuffer :=
  { size := 4294967295, offset_head := 4294967290, offset_tail := 4294967295
    mutex := [.lock, .unlock, .lock, .unlock, .lock, .unlock, .lock, .unlock]
    data := written_4g }

/-- Then after `read` of 10 bytes. -/
def huge_w4 : Ringbuffer :=
  { size := 4294967295, offset_head := 4, offset_tail := 4294967295
    mutex := [.lock, .unlock, .lock, .unlock, .lock, .unlock, .lock, .unlock, .lock, .unlock]
    data := written_4g }

/-- The run that leads from the fresh buffer of capacity `2^32 - 1` to
`huge_w4`. -/
def huge_run : List Call :=
  [Call.write source_4g 4294967295, Call.read 2147483645, Call.read 2147483645, Call.read 10]

/-! ## Memory lemmas -/

theorem length_memcpy_to (mem : List Byte) (off : Nat) (src : List Byte) (n : Nat) :
    (memcpy_to mem off src n).length = mem.length := by
  simp [memcpy_to]

theorem length_memcpy_from (mem : List Byte) (off n : Nat) :
    (memcpy_from mem off n).length = n := by
  simp [memcpy_from]

theorem getD_memcpy_to (mem : List Byte) (off : Nat) (src : List Byte) (n i : Nat) :
    (memcpy_to mem off src n).getD i 0 =
      if i < mem.length then
        (if off ≤ i ∧ i < off + n then src.getD (i - off) 0 else mem.getD i 0)
      else 0 := by
  unfold memcpy_to
  by_cases hi : i < mem.length
  · simp [List.getD_eq_getElem?_getD, List.getElem?_map, List.getElem?_range, hi]
  · have hnone : (List.range mem.length)[i]? = none := by
      apply List.getElem?_eq_none
      simp only [List.length_range]
      omega
    simp [List.getD_eq_getElem?_getD, List.getElem?_map, hi, hnone]

theorem getD_memcpy_from (mem : List Byte) (off n i : Nat) :
    (memcpy_from mem off n).getD i 0 = if i < n then mem.getD (off + i) 0 else 0 := by
  unfold memcpy_from
  by_cases hi : i < n
  · simp [List.getD_eq_getElem?_getD, List.getElem?_map, List.getElem?_range, hi]
  · have hnone : (List.range n)[i]? = none := by
      apply List.getElem?_eq_none
      simp only [List.length_range]
      omega
    simp [List.getD_eq_getElem?_getD, List.getElem?_map, hi, hnone]

theorem ext_getD (xs ys : List Byte) (hlen : xs.length = ys.length)
    (h : ∀ i, i < xs.length → xs.getD i 0 = ys.getD i 0) : xs = ys := by
  apply List.ext_getElem hlen
  intro i h1 h2
  have := h i h1
  simpa [List.getD_eq_getElem?_getD, List.getElem?_eq_getElem, h1, h2] using this

theorem memcpy_from_all (xs : List Byte) : memcpy_from xs 0 xs.length = xs := by
  apply ext_getD
  · simp [length_memcpy_from]
  · intro i hi
    rw [length_memcpy_from] at hi
    rw [getD_memcpy_from, if_pos hi, Nat.zero_add]

theorem getD_memcpy_to_outside (mem : List Byte) (off : Nat) (src : List Byte) (n i : Nat)
    (h : ¬ (off ≤ i ∧ i < off + n)) :
    (memcpy_to mem off src n).getD i 0 = mem.getD i 0 := by
  rw [getD_memcpy_to, if_neg h]
  by_cases hi : i < mem.length
  · rw [if_pos hi]
  · rw [if_neg hi, List.getD_eq_default _ _ (by omega)]

theorem getD_drop_zero (xs : List Byte) (k j : Nat) :
    (xs.drop k).getD j 0 = xs.getD (k + j) 0 := by
  simp [List.getD_eq_getElem?_getD, List.getElem?_drop]

theorem getD_take_of_lt (xs : List Byte) (f j : Nat) (h : j < f) :
    (xs.take f).getD j 0 = xs.getD j 0 := by
  simp [List.getD_eq_getElem?_getD, List.getElem?_take_of_lt h]

theorem memcpy_from_memcpy_to (mem : List Byte) (off : Nat) (src : List Byte) (n : Nat)
    (h : off + n ≤ mem.length) :
    memcpy_from (memcpy_to mem off src n) off n = memcpy_from src 0 n := by
  apply ext_getD
  · simp [length_memcpy_from]
  · intro i hi
    rw [length_memcpy_from] at hi
    rw [getD_memcpy_from, getD_memcpy_from, if_pos hi, if_pos hi, getD_memcpy_to]
    have h1 : off + i < mem.length := by omega
    have h2 : off ≤ off + i ∧ off + i < off + n := by omega
    rw [if_pos h1, if_pos h2]
    congr 1
    omega

theorem memcpy_from_eq_take_drop (mem : List Byte) (off n : Nat) (h : off + n ≤ mem.length) :
    memcpy_from mem off n = (mem.drop off).take n := by
  apply ext_getD
  · simp only [length_memcpy_from, List.length_take, List.length_drop]
    omega
  · intro i hi
    rw [length_memcpy_from] at hi
    rw [getD_memcpy_from, if_pos hi, getD_take_of_lt _ _ _ hi, getD_drop_zero]

theorem memcpy_from_add (mem : List Byte) (off a b : Nat) :
    memcpy_from mem off (a + b) = memcpy_from mem off a ++ memcpy_from mem (off + a) b := by
  unfold memcpy_from
  rw [List.range_add, List.map_append, List.map_map]
  congr 1
  apply List.map_congr_left
  intro i _
  simp [Nat.add_assoc]

theorem memcpy_from_memcpy_to_disjoint (mem : List Byte) (off1 : Nat) (src : List Byte)
    (n1 off2 n2 : Nat) (h : off2 + n2 ≤ off1 ∨ off1 + n1 ≤ off2) :
    memcpy_from (memcpy_to mem off1 src n1) off2 n2 = memcpy_from mem off2 n2 := by
  unfold memcpy_from
  apply List.map_congr_left
  intro i hi
  have hi2 : i < n2 := List.mem_range.mp hi
  exact getD_memcpy_to_outside _ _ _ _ _ (by omega)

theorem memcpy_from_zero_eq_take (src : List Byte) (n : Nat) (h : n ≤ src.length) :
    memcpy_from src 0 n = src.take n := by
  rw [memcpy_from_eq_take_drop _ _ _ (by omega), List.drop_zero]

/-! ## Conversions -/

theorem to_int_of_lt (x : Nat) (h : x < 2147483648) : to_int x = (x : Int) := by
  have h1 : x % 4294967296 = x := Nat.mod_eq_of_lt (by omega)
  simp [to_int, h1, h]

theorem to_unsigned_natCast (x : Nat) (h : x < 4294967296) : to_unsigned (x : Int) = x := by
  simp only [to_unsigned]
  omega

/-! ## The branches of `ringbuffer_write` -/

/-- A call made with the mutex held blocks at ringbuffer.c:73. -/
theorem write_held (data : List Byte) (size : Nat) (rb : Ringbuffer) :
    ringbuffer_write true data size rb =
      Outcome.blocked { rb with mutex := rb.mutex ++ [MutexOp.lock] } := by
  rw [ringbuffer_write]
  simp [ringbuffer_lock]

theorem write_space_lock (rb : Ringbuffer) :
    write_space
        { size := rb.size, offset_head := rb.offset_head, offset_tail := rb.offset_tail,
          mutex := rb.mutex ++ [MutexOp.lock], data := rb.data }
      = write_space rb := rfl

theorem write_full (data : List Byte) (size : Nat) (rb : Ringbuffer)
    (hf : (write_space rb).free = 0) :
    ringbuffer_write false data size rb =
      Outcome.returned 0 { rb with mutex := rb.mutex ++ [MutexOp.lock, MutexOp.unlock] } := by
  rw [ringbuffer_write]
  simp [ringbuffer_lock, ringbuffer_unlock, write_space_lock, hf]

theorem write_direct (data : List Byte) (size : Nat) (rb : Ringbuffer)
    (hf : (write_space rb).free ≠ 0) (hc : (write_space rb).cutoff = 0) :
    ringbuffer_write false data size rb =
      Outcome.returned (min size (write_space rb).free)
        { size := rb.size
          offset_head := rb.offset_head
          offset_tail := uadd rb.offset_tail (min size (write_space rb).free)
          mutex := rb.mutex ++ [MutexOp.lock, MutexOp.unlock, MutexOp.lock, MutexOp.unlock]
          data := memcpy_to rb.data rb.offset_tail data (min size (write_space rb).free) } := by
  have hmin2 : (if (write_space rb).free < size then (write_space rb).free else size)
      = min size (write_space rb).free := by
    split <;> omega
  rw [ringbuffer_write]
  simp [ringbuffer_lock, ringbuffer_unlock, write_space_lock, hf, hc, hmin2]

/-- The wrap path: after the first copy the recursive call of ringbuffer.c:114
is made with the mutex held, and blocks at ringbuffer.c:73. -/
theorem write_wrap (data : List Byte) (size : Nat) (rb : Ringbuffer)
    (hf : (write_space rb).free ≠ 0) (hc : (write_space rb).cutoff ≠ 0) :
    ringbuffer_write false data size rb =
      Outcome.blocked
        { size := rb.size
          offset_head := rb.offset_head
          offset_tail := 0
          mutex := rb.mutex ++ [MutexOp.lock, MutexOp.unlock, MutexOp.lock, MutexOp.lock]
          data := memcpy_to rb.data rb.offset_tail data (write_space rb).contiguous } := by
  rw [ringbuffer_write]
  simp [ringbuffer_lock, ringbuffer_unlock, write_space_lock, hf, hc, write_held]

/-! ## The branches of `ringbuffer_read` -/

theorem read_error (held : Bool) (size : Nat) (rb : Ringbuffer) (h : size > rb.size) :
    ringbuffer_read held size rb = Outcome.returned (RB_ERROR_CANT_READ, []) rb := by
  rw [ringbuffer_read]
  simp [h]

/-- A call made with the mutex held, for a request within the capacity, blocks
at ringbuffer.c:134. -/
theorem read_held (size : Nat) (rb : Ringbuffer) (h : size ≤ rb.size) :
    ringbuffer_read true size rb =
      Outcome.blocked { rb with mutex := rb.mutex ++ [MutexOp.lock] } := by
  have h1 : ¬ size > rb.size := by omega
  rw [ringbuffer_read]
  simp [ringbuffer_lock, h1]

theorem read_linear (size : Nat) (rb : Ringbuffer) (h : size ≤ rb.size)
    (hlt : rb.offset_head < rb.offset_tail) :
    ringbuffer_read false size rb =
      Outcome.returned
        (to_int (if uadd rb.offset_head size ≤ rb.offset_tail then size
            else usub rb.offset_tail rb.offset_head),
          memcpy_from rb.data rb.offset_head
            (if uadd rb.offset_head size ≤ rb.offset_tail then size
              else usub rb.offset_tail rb.offset_head))
        { size := rb.size
          offset_head := uadd rb.offset_head
            (if uadd rb.offset_head size ≤ rb.offset_tail then size
              else usub rb.offset_tail rb.offset_head)
          offset_tail :=
            if uadd rb.offset_head
                (if uadd rb.offset_head size ≤ rb.offset_tail then size
                  else usub rb.offset_tail rb.offset_head) < rb.offset_tail
            then rb.offset_tail
            else uadd rb.offset_head
                (if uadd rb.offset_head size ≤ rb.offset_tail then size
                  else usub rb.offset_tail rb.offset_head)
          mutex := rb.mutex ++ [MutexOp.lock, MutexOp.unlock]
          data := rb.data } := by
  have h1 : ¬ size > rb.size := by omega
  rw [ringbuffer_read]
  simp [h1, hlt, ringbuffer_lock, ringbuffer_unlock]

theorem read_fit (size : Nat) (rb : Ringbuffer) (h : size ≤ rb.size)
    (hgt : rb.offset_head > rb.offset_tail) (hfit : uadd rb.offset_head size ≤ rb.size) :
    ringbuffer_read false size rb =
      Outcome.returned (to_int size, memcpy_from rb.data rb.offset_head size)
        { size := rb.size
          offset_head :=
            if uadd rb.offset_head size < rb.size then uadd rb.offset_head size else 0
          offset_tail := rb.offset_tail
          mutex := rb.mutex ++ [MutexOp.lock, MutexOp.unlock]
          data := rb.data } := by
  have h1 : ¬ size > rb.size := by omega
  have h2 : ¬ rb.offset_head < rb.offset_tail := by omega
  rw [ringbuffer_read]
  simp [h1, h2, hgt, hfit, ringbuffer_lock, ringbuffer_unlock]

/-- The wrap continuation: after the first copy the recursive call of
ringbuffer.c:164 is made with the mutex held, and blocks at ringbuffer.c:134. -/
theorem read_wrap (size : Nat) (rb : Ringbuffer) (h : size ≤ rb.size)
    (hgt : rb.offset_head > rb.offset_tail) (hover : uadd rb.offset_head size > rb.size)
    (hin : usub size (usub rb.size rb.offset_head) ≤ rb.size) :
    ringbuffer_read false size rb =
      Outcome.blocked
        { size := rb.size
          offset_head := 0
          offset_tail := rb.offset_tail
          mutex := rb.mutex ++ [MutexOp.lock, MutexOp.lock]
          data := rb.data } := by
  have h1 : ¬ size > rb.size := by omega
  have h2 : ¬ rb.offset_head < rb.offset_tail := by omega
  have h3 : ¬ uadd rb.offset_head size ≤ rb.size := by omega
  rw [ringbuffer_read]
  simp [h1, h2, h3, hgt, hover, hin, ringbuffer_lock, read_held]

theorem read_empty (size : Nat) (rb : Ringbuffer) (h : size ≤ rb.size)
    (heq : rb.offset_head = rb.offset_tail) :
    ringbuffer_read false size rb =
      Outcome.returned (0, [])
        { rb with mutex := rb.mutex ++ [MutexOp.lock, MutexOp.unlock] } := by
  have h1 : ¬ size > rb.size := by omega
  rw [ringbuffer_read]
  simp [h1, heq, ringbuffer_lock, ringbuffer_unlock]
/-! ## The space computation on each geometry -/

theorem write_space_fresh (rb : Ringbuffer) (hh : rb.offset_head = 0) (ht : rb.offset_tail = 0) :
    write_space rb = { free := rb.size, contiguous := rb.size, cutoff := 0 } := by
  simp [write_space, hh, ht]

theorem write_space_head_zero (rb : Ringbuffer) (hh : rb.offset_head = 0)
    (ht : 0 < rb.offset_tail) (hts : rb.offset_tail ≤ rb.size) (hs : rb.size < 4294967296) :
    write_space rb =
      { free := rb.size - rb.offset_tail, contiguous := rb.size - rb.offset_tail, cutoff := 0 } := by
  have h1 : ¬ (rb.offset_head = rb.offset_tail ∧ rb.offset_head = 0) := by omega
  have h2 : rb.offset_head < rb.offset_tail := by omega
  have h3 : usub rb.size rb.offset_tail = rb.size - rb.offset_tail := by
    simp only [usub]; omega
  have h4 : uadd (rb.size - rb.offset_tail) rb.offset_head = rb.size - rb.offset_tail := by
    simp only [uadd]; omega
  simp only [write_space, h1, h2, h3, h4, if_true, if_false]
  simp [hh]

theorem write_space_wrap (rb : Ringbuffer) (hh : 0 < rb.offset_head)
    (hht : rb.offset_head < rb.offset_tail) (hts : rb.offset_tail ≤ rb.size)
    (hs : rb.size < 4294967296) :
    write_space rb =
      { free := rb.size - rb.offset_tail + rb.offset_head
        contiguous := rb.size - rb.offset_tail
        cutoff := rb.offset_head } := by
  have h1 : ¬ (rb.offset_head = rb.offset_tail ∧ rb.offset_head = 0) := by omega
  have h3 : usub rb.size rb.offset_tail = rb.size - rb.offset_tail := by
    simp only [usub]; omega
  have h4 : uadd (rb.size - rb.offset_tail) rb.offset_head
      = rb.size - rb.offset_tail + rb.offset_head := by
    simp only [uadd]; omega
  simp only [write_space, h1, hht, h3, h4, if_true, if_false]

theorem write_space_caught_up (rb : Ringbuffer) (hh : rb.offset_head ≠ 0)
    (heq : rb.offset_head = rb.offset_tail) :
    write_space rb = { free := 0, contiguous := 0, cutoff := 0 } := by
  have h1 : ¬ (rb.offset_head = rb.offset_tail ∧ rb.offset_head = 0) := by
    intro h; exact hh h.2
  have h2 : ¬ rb.offset_head < rb.offset_tail := by omega
  have h3 : usub rb.offset_head rb.offset_tail = 0 := by
    simp only [usub, heq]; omega
  simp only [write_space, h1, h2, h3, if_false]

theorem write_space_behind (rb : Ringbuffer) (hgt : rb.offset_tail < rb.offset_head)
    (hs : rb.offset_head < 4294967296) :
    write_space rb =
      { free := rb.offset_head - rb.offset_tail
        contiguous := rb.offset_head - rb.offset_tail
        cutoff := 0 } := by
  have h1 : ¬ (rb.offset_head = rb.offset_tail ∧ rb.offset_head = 0) := by omega
  have h2 : ¬ rb.offset_head < rb.offset_tail := by omega
  have h3 : usub rb.offset_head rb.offset_tail = rb.offset_head - rb.offset_tail := by
    simp only [usub]; omega
  simp only [write_space, h1, h2, h3, if_false]

/-! ## The result of a write on each geometry with `head ≤ tail` -/

theorem write_fresh_result (data : List Byte) (size : Nat) (rb : Ringbuffer)
    (hh : rb.offset_head = 0) (ht : rb.offset_tail = 0) (hs : rb.size < 4294967296)
    (hpos : rb.size ≠ 0) :
    ringbuffer_write false data size rb =
      Outcome.returned (min size rb.size)
        { size := rb.size
          offset_head := rb.offset_head
          offset_tail := min size rb.size
          mutex := rb.mutex ++ [MutexOp.lock, MutexOp.unlock, MutexOp.lock, MutexOp.unlock]
          data := memcpy_to rb.data 0 data (min size rb.size) } := by
  have hsp := write_space_fresh rb hh ht
  have hf : (write_space rb).free ≠ 0 := by rw [hsp]; exact hpos
  have hc : (write_space rb).cutoff = 0 := by rw [hsp]
  rw [write_direct data size rb hf hc, hsp]
  have hu : uadd 0 (min size rb.size) = min size rb.size := by
    simp only [uadd]; omega
  simp only [ht, hu]

theorem write_head_zero_result (data : List Byte) (size : Nat) (rb : Ringbuffer)
    (hh : rb.offset_head = 0) (ht : 0 < rb.offset_tail) (hts : rb.offset_tail < rb.size)
    (hs : rb.size < 4294967296) :
    ringbuffer_write false data size rb =
      Outcome.returned (min size (rb.size - rb.offset_tail))
        { size := rb.size
          offset_head := rb.offset_head
          offset_tail := rb.offset_tail + min size (rb.size - rb.offset_tail)
          mutex := rb.mutex ++ [MutexOp.lock, MutexOp.unlock, MutexOp.lock, MutexOp.unlock]
          data := memcpy_to rb.data rb.offset_tail data (min size (rb.size - rb.offset_tail)) } := by
  have hsp := write_space_head_zero rb hh ht (by omega) hs
  have hf : (write_space rb).free ≠ 0 := by rw [hsp]; simp only; omega
  have hc : (write_space rb).cutoff = 0 := by rw [hsp]
  rw [write_direct data size rb hf hc, hsp]
  have hu : uadd rb.offset_tail (min size (rb.size - rb.offset_tail))
      = rb.offset_tail + min size (rb.size - rb.offset_tail) := by
    simp only [uadd]; omega
  simp only [hu]

/-- A write in a state with `head = tail ≠ 0`. -/
theorem write_caught_up_result (src : List Byte) (size : Nat) (rb : Ringbuffer)
    (heq : rb.offset_head = rb.offset_tail) (hne : rb.offset_head ≠ 0) :
    ringbuffer_write false src size rb =
      Outcome.returned 0 { rb with mutex := rb.mutex ++ [MutexOp.lock, MutexOp.unlock] } :=
  write_full src size rb (by rw [write_space_caught_up rb hne heq])

/-- A write in a state with `0 < head < tail`: the first copy is made, tail is
reset, and the recursive call blocks; the requested length plays no part. -/
theorem write_wrap_blocks (data : List Byte) (size : Nat) (rb : Ringbuffer)
    (hh : 0 < rb.offset_head) (hht : rb.offset_head < rb.offset_tail)
    (hts : rb.offset_tail ≤ rb.size) (hs : rb.size < 4294967296) :
    ringbuffer_write false data size rb =
      Outcome.blocked
        { size := rb.size
          offset_head := rb.offset_head
          offset_tail := 0
          mutex := rb.mutex ++ [MutexOp.lock, MutexOp.unlock, MutexOp.lock, MutexOp.lock]
          data := memcpy_to rb.data rb.offset_tail data (rb.size - rb.offset_tail) } := by
  have hsp := write_space_wrap rb hh hht hts hs
  have hf : (write_space rb).free ≠ 0 := by rw [hsp]; simp only; omega
  have hc : (write_space rb).cutoff ≠ 0 := by rw [hsp]; simp only; omega
  rw [write_wrap data size rb hf hc, hsp]

/-- On a well-formed state the code's free space is the specification's. -/
theorem write_space_free_eq_spec (rb : Ringbuffer) (hw : WellFormed rb) :
    (write_space rb).free = spec_free rb := by
  obtain ⟨hs, _, hht, hts⟩ := hw
  unfold spec_free
  by_cases h0 : rb.offset_head = 0 ∧ rb.offset_tail = 0
  · rw [if_pos h0, write_space_fresh rb h0.1 h0.2]
  · rw [if_neg h0]
    by_cases hlt : rb.offset_head < rb.offset_tail
    · rw [if_pos hlt]
      by_cases hh : rb.offset_head = 0
      · rw [write_space_head_zero rb hh (by omega) hts hs]
        simp only; omega
      · rw [write_space_wrap rb (by omega) hlt hts hs]
    · rw [if_neg hlt]
      have heq : rb.offset_head = rb.offset_tail := by omega
      rw [write_space_caught_up rb (by omega) heq]
      simp only; omega

/-! ## Reads that start with `head ≤ tail` -/

/-- The state and the bytes of a read that starts with `head < tail`, when the
sum of ringbuffer.c:137 does not wrap. -/
theorem read_linear_result (size : Nat) (rb : Ringbuffer)
    (hlt : rb.offset_head < rb.offset_tail) (hts : rb.offset_tail ≤ rb.size)
    (hn : size ≤ rb.size) (hsum : rb.offset_head + size < 4294967296) :
    ringbuffer_read false size rb =
      Outcome.returned
        (to_int (min size (rb.offset_tail - rb.offset_head)),
          memcpy_from rb.data rb.offset_head (min size (rb.offset_tail - rb.offset_head)))
        { size := rb.size
          offset_head := rb.offset_head + min size (rb.offset_tail - rb.offset_head)
          offset_tail := rb.offset_tail
          mutex := rb.mutex ++ [MutexOp.lock, MutexOp.unlock]
          data := rb.data } := by
  have hsz : (if uadd rb.offset_head size ≤ rb.offset_tail then size
      else usub rb.offset_tail rb.offset_head) = min size (rb.offset_tail - rb.offset_head) := by
    simp only [uadd, usub]
    split_ifs <;> omega
  have hu : uadd rb.offset_head (min size (rb.offset_tail - rb.offset_head))
      = rb.offset_head + min size (rb.offset_tail - rb.offset_head) := by
    simp only [uadd]; omega
  have ht : (if rb.offset_head + min size (rb.offset_tail - rb.offset_head) < rb.offset_tail
      then rb.offset_tail
      else rb.offset_head + min size (rb.offset_tail - rb.offset_head)) = rb.offset_tail := by
    split_ifs <;> omega
  rw [read_linear size rb hn hlt]
  simp only [hsz, hu, ht]

/-! ## Single-threaded reachability -/

theorem create_wellFormed (hdr : Nat) (buffer : List Byte) (size : Nat)
    (hlen : buffer.length = size) (hhdr : hdr ≤ size) (hsize : size < 4294967296) :
    (ringbuffer_create hdr buffer size).size = size - hdr ∧
      WellFormed (ringbuffer_create hdr buffer size) := by
  have hu : usub size hdr = size - hdr := by
    simp only [usub]; omega
  simp only [ringbuffer_create, WellFormed, hu, List.length_drop, hlen, true_and]
  omega

theorem write_wellFormed (data : List Byte) (size : Nat) (rb : Ringbuffer)
    (r : Nat) (rb2 : Ringbuffer) (hw : WellFormed rb)
    (hret : ringbuffer_write false data size rb = Outcome.returned r rb2) :
    rb2.size = rb.size ∧ WellFormed rb2 := by
  obtain ⟨hs, hd, hht, hts⟩ := hw
  by_cases hf : (write_space rb).free = 0
  · rw [write_full data size rb hf] at hret
    cases hret
    exact ⟨rfl, hs, hd, hht, hts⟩
  · by_cases hlt : rb.offset_head < rb.offset_tail
    · by_cases hh : rb.offset_head = 0
      · have hts2 : rb.offset_tail < rb.size := by
          rw [write_space_head_zero rb hh (by omega) hts hs] at hf
          simp only at hf; omega
        rw [write_head_zero_result data size rb hh (by omega) hts2 hs] at hret
        cases hret
        simp only [WellFormed, length_memcpy_to, true_and]
        omega
      · rw [write_wrap_blocks data size rb (by omega) hlt hts hs] at hret
        cases hret
    · have heq : rb.offset_head = rb.offset_tail := by omega
      by_cases hh : rb.offset_head = 0
      · have hpos : rb.size ≠ 0 := by
          rw [write_space_fresh rb hh (by omega)] at hf
          exact hf
        rw [write_fresh_result data size rb hh (by omega) hs hpos] at hret
        cases hret
        simp only [WellFormed, length_memcpy_to, true_and]
        omega
      · exact absurd (by rw [write_space_caught_up rb hh heq]) hf

theorem read_wellFormed (size : Nat) (rb : Ringbuffer) (v : Int × List Byte)
    (rb2 : Ringbuffer) (hw : WellFormed rb)
    (hret : ringbuffer_read false size rb = Outcome.returned v rb2) :
    rb2.size = rb.size ∧ WellFormed rb2 := by
  obtain ⟨hs, hd, hht, hts⟩ := hw
  by_cases hn : size ≤ rb.size
  · by_cases heq : rb.offset_head = rb.offset_tail
    · rw [read_empty size rb hn heq] at hret
      cases hret
      exact ⟨rfl, hs, hd, hht, hts⟩
    · have hlt : rb.offset_head < rb.offset_tail := by omega
      rw [read_linear size rb hn hlt] at hret
      cases hret
      simp only [WellFormed, uadd, usub, true_and]
      refine ⟨hs, hd, ?_, ?_⟩
      · split_ifs <;> omega
      · split_ifs <;> omega
  · rw [read_error false size rb (by omega)] at hret
    cases hret
    exact ⟨rfl, hs, hd, hht, hts⟩

theorem reachable_wellFormed (c : Nat) (rb : Ringbuffer) (h : Reachable c rb) :
    rb.size = c ∧ WellFormed rb := by
  induction h with
  | create hdr buffer size hlen hhdr hsize => exact create_wellFormed hdr buffer size hlen hhdr hsize
  | write c rb data size r rb2 _ hret ih =>
    obtain ⟨h1, h2⟩ := write_wellFormed data size rb r rb2 ih.2 hret
    exact ⟨h1.trans ih.1, h2⟩
  | read c rb size v rb2 _ hret ih =>
    obtain ⟨h1, h2⟩ := read_wellFormed size rb v rb2 ih.2 hret
    exact ⟨h1.trans ih.1, h2⟩

/-! ## FIFO order over runs -/

/-- A write that returns keeps the FIFO relation. -/
theorem fifo_write (src : List Byte) (size : Nat) (rb : Ringbuffer) (t : Transfer)
    (r : Nat) (rb2 : Ringbuffer) (hw : WellFormed rb) (hF : Fifo rb t)
    (hret : ringbuffer_write false src size rb = Outcome.returned r rb2)
    (hsrc : r ≤ src.length) :
    Fifo rb2 { accepted := t.accepted ++ src.take r, delivered := t.delivered } := by
  obtain ⟨hs, hd, hht, hts⟩ := hw
  obtain ⟨⟨rest, hrest⟩, hlive⟩ := hF
  by_cases hf : (write_space rb).free = 0
  · -- nothing is written
    rw [write_full src size rb hf] at hret
    cases hret
    simp only [Fifo, unread, List.take_zero, List.append_nil]
    exact ⟨⟨rest, hrest⟩, hlive⟩
  · by_cases hlt : rb.offset_head < rb.offset_tail
    · have hacc := hlive (Or.inl hlt)
      by_cases hh : rb.offset_head = 0
      · -- head = 0 < tail: the unread bytes grow at their end
        have hts2 : rb.offset_tail < rb.size := by
          rw [write_space_head_zero rb hh (by omega) hts hs] at hf
          simp only at hf; omega
        rw [write_head_zero_result src size rb hh (by omega) hts2 hs] at hret
        cases hret
        have heq : t.accepted ++ src.take (min size (rb.size - rb.offset_tail)) =
            t.delivered ++ memcpy_from
              (memcpy_to rb.data rb.offset_tail src (min size (rb.size - rb.offset_tail)))
              rb.offset_head
              (rb.offset_tail + min size (rb.size - rb.offset_tail) - rb.offset_head) := by
          have hsplit : rb.offset_tail + min size (rb.size - rb.offset_tail) - rb.offset_head
              = (rb.offset_tail - rb.offset_head) + min size (rb.size - rb.offset_tail) := by
            omega
          rw [hsplit, memcpy_from_add,
            memcpy_from_memcpy_to_disjoint _ _ _ _ _ _ (Or.inl (by omega)),
            show rb.offset_head + (rb.offset_tail - rb.offset_head) = rb.offset_tail by omega,
            memcpy_from_memcpy_to _ _ _ _ (by omega),
            memcpy_from_zero_eq_take _ _ hsrc, hacc]
          simp only [unread, List.append_assoc]
        simp only [Fifo, unread]
        exact ⟨⟨_, heq⟩, fun _ => heq⟩
      · -- 0 < head < tail: the call does not return
        rw [write_wrap_blocks src size rb (by omega) hlt hts hs] at hret
        cases hret
    · have heq0 : rb.offset_head = rb.offset_tail := by omega
      by_cases hh : rb.offset_head = 0
      · -- head = tail = 0: nothing was transferred yet
        have ht0 : rb.offset_tail = 0 := by omega
        have hacc := hlive (Or.inr ht0)
        have hpos : rb.size ≠ 0 := by
          rw [write_space_fresh rb hh ht0] at hf
          exact hf
        rw [write_fresh_result src size rb hh ht0 hs hpos] at hret
        cases hret
        have heq : t.accepted ++ src.take (min size rb.size) =
            t.delivered ++ memcpy_from (memcpy_to rb.data 0 src (min size rb.size))
              rb.offset_head (min size rb.size - rb.offset_head) := by
          rw [hh, Nat.sub_zero, memcpy_from_memcpy_to _ _ _ _ (by omega),
            memcpy_from_zero_eq_take _ _ hsrc, hacc]
          simp only [unread, hh, ht0, Nat.sub_zero, memcpy_from, List.range_zero, List.map_nil,
            List.append_nil]
        simp only [Fifo, unread]
        exact ⟨⟨_, heq⟩, fun _ => heq⟩
      · exact absurd (by rw [write_space_caught_up rb hh heq0]) hf

/-- A read that returns keeps the FIFO relation, for capacities up to `2^31`. -/
theorem fifo_read (size : Nat) (rb : Ringbuffer) (t : Transfer)
    (v : Int × List Byte) (rb2 : Ringbuffer)
    (hw : WellFormed rb) (hs31 : rb.size ≤ 2147483648) (hF : Fifo rb t)
    (hret : ringbuffer_read false size rb = Outcome.returned v rb2) :
    Fifo rb2 { accepted := t.accepted, delivered := t.delivered ++ v.2 } := by
  obtain ⟨hs, hd, hht, hts⟩ := hw
  obtain ⟨⟨rest, hrest⟩, hlive⟩ := hF
  by_cases hn : size ≤ rb.size
  · by_cases heq : rb.offset_head = rb.offset_tail
    · rw [read_empty size rb hn heq] at hret
      cases hret
      simp only [Fifo, unread, List.append_nil]
      exact ⟨⟨rest, hrest⟩, hlive⟩
    · have hlt : rb.offset_head < rb.offset_tail := by omega
      have hacc := hlive (Or.inl hlt)
      rw [read_linear_result size rb hlt hts hn (by omega)] at hret
      cases hret
      have hsplit : rb.offset_tail - rb.offset_head
          = min size (rb.offset_tail - rb.offset_head)
            + (rb.offset_tail - (rb.offset_head + min size (rb.offset_tail - rb.offset_head))) := by
        omega
      have heq2 : t.accepted =
          (t.delivered ++ memcpy_from rb.data rb.offset_head
              (min size (rb.offset_tail - rb.offset_head))) ++
            memcpy_from rb.data (rb.offset_head + min size (rb.offset_tail - rb.offset_head))
              (rb.offset_tail - (rb.offset_head + min size (rb.offset_tail - rb.offset_head))) := by
        rw [List.append_assoc, ← memcpy_from_add, ← hsplit]
        exact hacc
      simp only [Fifo, unread]
      exact ⟨⟨_, heq2⟩, fun _ => heq2⟩
  · rw [read_error false size rb (by omega)] at hret
    cases hret
    simp only [Fifo, List.append_nil]
    exact ⟨⟨rest, hrest⟩, hlive⟩

/-- Every admissible run keeps the delivered bytes a leading part of the
accepted ones, for capacities up to `2^31`. -/
theorem fifo_run (calls : List Call) :
    ∀ (rb : Ringbuffer) (t : Transfer), WellFormed rb → rb.size ≤ 2147483648 → Fifo rb t →
      calls_admissible calls rb →
      ∃ rest, (run_calls calls rb t).1.accepted = (run_calls calls rb t).1.delivered ++ rest := by
  induction calls with
  | nil =>
    intro rb t _ _ hF _
    exact hF.1
  | cons call cs ih =>
    intro rb t hw hs31 hF hadm
    cases call with
    | write src size =>
      cases hres : ringbuffer_write false src size rb with
      | returned r rb2 =>
        simp only [calls_admissible, hres] at hadm
        simp only [run_calls, hres]
        obtain ⟨hsz, hw2⟩ := write_wellFormed src size rb r rb2 hw hres
        exact ih _ _ hw2 (by rw [hsz]; exact hs31) (fifo_write src size rb t r rb2 hw hF hres hadm.1)
          hadm.2
      | blocked b =>
        simp only [run_calls, hres]
        exact hF.1
    | read size =>
      cases hres : ringbuffer_read false size rb with
      | returned v rb2 =>
        simp only [calls_admissible, hres] at hadm
        simp only [run_calls, hres]
        obtain ⟨hsz, hw2⟩ := read_wellFormed size rb v rb2 hw hres
        exact ih _ _ hw2 (by rw [hsz]; exact hs31) (fifo_read size rb t v rb2 hw hs31 hF hres)
          hadm.2
      | blocked b =>
        simp only [run_calls, hres]
        exact hF.1

/-- One step of a run: a write that returned. -/
theorem run_calls_write_returned (data : List Byte) (size : Nat) (cs : List Call)
    (rb : Ringbuffer) (t : Transfer) (r : Nat) (rb2 : Ringbuffer)
    (h : ringbuffer_write false data size rb = Outcome.returned r rb2) :
    run_calls (Call.write data size :: cs) rb t =
      run_calls cs rb2 { accepted := t.accepted ++ data.take r, delivered := t.delivered } := by
  simp only [run_calls, h]

/-- One step of a run: a read that returned. -/
theorem run_calls_read_returned (size : Nat) (cs : List Call)
    (rb : Ringbuffer) (t : Transfer) (v : Int × List Byte) (rb2 : Ringbuffer)
    (h : ringbuffer_read false size rb = Outcome.returned v rb2) :
    run_calls (Call.read size :: cs) rb t =
      run_calls cs rb2 { accepted := t.accepted, delivered := t.delivered ++ v.2 } := by
  simp only [run_calls, h]

theorem run_calls_nil (rb : Ringbuffer) (t : Transfer) :
    run_calls [] rb t = (t, Outcome.returned () rb) := by
  simp only [run_calls]

theorem calls_admissible_write_returned (data : List Byte) (size : Nat) (cs : List Call)
    (rb : Ringbuffer) (r : Nat) (rb2 : Ringbuffer)
    (h : ringbuffer_write false data size rb = Outcome.returned r rb2) :
    calls_admissible (Call.write data size :: cs) rb ↔
      r ≤ data.length ∧ calls_admissible cs rb2 := by
  simp only [calls_admissible, h]

theorem calls_admissible_read_returned (size : Nat) (cs : List Call)
    (rb : Ringbuffer) (v : Int × List Byte) (rb2 : Ringbuffer)
    (h : ringbuffer_read false size rb = Outcome.returned v rb2) :
    calls_admissible (Call.read size :: cs) rb ↔ size ≤ rb.size ∧ calls_admissible cs rb2 := by
  simp only [calls_admissible, h]


/-! ## Round trip -/

/-- C1, as stated, fails: with capacity `2^31` and a sequence of `L = 2^31`
bytes the write returns `L`, and the read of `L` bytes returns `-2^31`: the
count does not fit the `int` result. -/
theorem C1_round_trip_fails_at_2GiB :
    source_2g.length = 2147483648 ∧ big_s0.data.length = big_s0.size ∧
      ringbuffer_write false source_2g 2147483648 big_s0 = Outcome.returned 2147483648 big_s1 ∧
      ringbuffer_read false 2147483648 big_s1 =
        Outcome.returned (-2147483648, memcpy_from big_s1.data 0 2147483648) big_s2 := by
  refine ⟨?_, ?_, ?_, ?_⟩
  · simp only [source_2g, List.length_replicate]
  · simp only [big_s0, region_2g, List.length_replicate]
  · have hmin : min 2147483648 big_s0.size = 2147483648 := by decide
    rw [write_fresh_result source_2g 2147483648 big_s0 rfl rfl (by decide) (by decide), hmin]
    simp only [big_s0, big_s1, List.nil_append]
  · have hmin : min 2147483648 (big_s1.offset_tail - big_s1.offset_head) = 2147483648 := by
      decide
    have hint : to_int 2147483648 = -2147483648 := by decide
    rw [read_linear_result 2147483648 big_s1 (by decide) (by decide) (by decide) (by decide),
      hmin, hint]
    simp only [big_s1, big_s2, Nat.zero_add, List.cons_append, List.nil_append]

/-- C1, amended (`L < 2^31`): on a buffer with `head = tail = 0` (as
`ringbuffer_create` leaves it) whose data region has `capacity` bytes, writing
a sequence `A` of length `L ≤ capacity`, `L < 2^31`, returns `L`, and the read
of length `L` that follows returns `L` and delivers exactly the bytes of `A`
in order. -/
theorem C1_round_trip_fresh (rb : Ringbuffer) (A : List Byte)
    (hh : rb.offset_head = 0) (ht : rb.offset_tail = 0) (hd : rb.data.length = rb.size)
    (hs : rb.size < 4294967296) (hA : A.length ≤ rb.size) (hA31 : A.length < 2147483648) :
    ∃ rb1 rb2,
      ringbuffer_write false A A.length rb = Outcome.returned A.length rb1 ∧
      ringbuffer_read false A.length rb1 = Outcome.returned ((A.length : Int), A) rb2 := by
  by_cases hL : A.length = 0
  · have hnil : A = [] := List.length_eq_zero.mp hL
    subst hnil
    simp only [List.length_nil, Nat.cast_zero]
    by_cases hpos : rb.size = 0
    · have hf : (write_space rb).free = 0 := by rw [write_space_fresh rb hh ht]; exact hpos
      exact ⟨_, _, write_full [] 0 rb hf,
        read_empty 0 _ (Nat.zero_le _) (by simp only; omega)⟩
    · have hw := write_fresh_result [] 0 rb hh ht hs hpos
      rw [Nat.zero_min] at hw
      exact ⟨_, _, hw, read_empty 0 _ (Nat.zero_le _) (by simp only; omega)⟩
  · have hpos : rb.size ≠ 0 := by omega
    have hmin : min A.length rb.size = A.length := Nat.min_eq_left hA
    have hw := write_fresh_result A A.length rb hh ht hs hpos
    rw [hmin] at hw
    have hr := read_linear_result A.length
      { size := rb.size
        offset_head := rb.offset_head
        offset_tail := A.length
        mutex := rb.mutex ++ [MutexOp.lock, MutexOp.unlock, MutexOp.lock, MutexOp.unlock]
        data := memcpy_to rb.data 0 A A.length }
      (by simp only; omega) (by simp only; omega) (by simp only; omega) (by simp only; omega)
    simp only [hh, Nat.sub_zero, Nat.min_self, Nat.zero_add] at hr
    rw [to_int_of_lt _ hA31, memcpy_from_memcpy_to rb.data 0 A A.length (by omega),
      memcpy_from_all] at hr
    rw [hh] at hw
    exact ⟨_, _, hw, hr⟩

theorem C1_round_trip_fresh_witness :
    ∃ rb1 rb2,
      ringbuffer_write false [1, 2, 3] [1, 2, 3].length
          (ringbuffer_create 16 (List.replicate 20 0) 20)
        = Outcome.returned [1, 2, 3].length rb1 ∧
      ringbuffer_read false [1, 2, 3].length rb1
        = Outcome.returned (([1, 2, 3].length : Int), [1, 2, 3]) rb2 :=
  C1_round_trip_fresh (ringbuffer_create 16 (List.replicate 20 0) 20) [1, 2, 3]
    (by decide) (by decide) (by decide) (by decide) (by decide) (by decide)

/-! ## Runs on which the code departs from the specification -/

/-- C2: capacity 10, `k = 2`, `j = 3`, `m = 4`.  The first write and the read
return; the second write, which straddles the end of the array, copies its
first two bytes, resets tail and makes the recursive call of ringbuffer.c:114
with the mutex locked at ringbuffer.c:101: the call blocks in
`ringbuffer_lock` and the write never returns, so the read of `2j + m = 10`
bytes that should deliver `6, 7, 8, 11, .., 17` is never made. -/
theorem C2_wrapping_write_blocks :
    ringbuffer_write false [1, 2, 3, 4, 5, 6, 7, 8] 8 fresh10 = Outcome.returned 8 wrap_s1 ∧
      ringbuffer_read false 5 wrap_s1 = Outcome.returned (5, [1, 2, 3, 4, 5]) wrap_s2 ∧
      ringbuffer_write false [11, 12, 13, 14, 15, 16, 17] 7 wrap_s2 = Outcome.blocked wrap_s3 := by
  refine ⟨?_, ?_, ?_⟩
  · rw [ringbuffer_write]; decide
  · rw [ringbuffer_read]; decide
  · rw [write_wrap_blocks _ _ _ (by decide) (by decide) (by decide) (by decide)]; decide

/-- C3: capacity 10 with `head = 2`, `tail = 5` (reached by writing 5 bytes
and reading 2), free space 7.  A write of 1 byte from an 8 byte array copies 5
bytes, resets tail and blocks in the recursive call; it returns nothing, where
the claim has the result `min(1, 7) = 1`. -/
theorem C3_write_of_one_byte_blocks :
    ringbuffer_write false [1, 2, 3, 4, 5] 5 fresh10 = Outcome.returned 5 clamp_s1 ∧
      ringbuffer_read false 2 clamp_s1 = Outcome.returned (2, [1, 2]) clamp_s2 ∧
      spec_free clamp_s2 = 7 ∧
      ringbuffer_write false [21, 22, 23, 24, 25, 26, 27, 28] 1 clamp_s2
        = Outcome.blocked clamp_s3 := by
  refine ⟨?_, ?_, by decide, ?_⟩
  · rw [ringbuffer_write]; decide
  · rw [ringbuffer_read]; decide
  · rw [write_wrap_blocks _ _ _ (by decide) (by decide) (by decide) (by decide)]; decide

/-- C4: the state with `head = 2`, `tail = 5` of capacity 10 is reachable and
has free space 7.  A write of 8 bytes, one more than the free space, blocks in
the recursive call after copying 5 bytes; it does not return 7. -/
theorem C4_truncating_write_blocks :
    Reachable 10 clamp_s2 ∧ spec_free clamp_s2 = 7 ∧
      ringbuffer_write false [21, 22, 23, 24, 25, 26, 27, 28] 8 clamp_s2
        = Outcome.blocked clamp_s3 := by
  have h0 : Reachable 10 fresh10 :=
    Reachable.create 16 (List.replicate 26 0) 26 (by decide) (by decide) (by decide)
  have h1 : ringbuffer_write false [1, 2, 3, 4, 5] 5 fresh10 = Outcome.returned 5 clamp_s1 := by
    rw [ringbuffer_write]; decide
  have h2 : ringbuffer_read false 2 clamp_s1 = Outcome.returned (2, [1, 2]) clamp_s2 := by
    rw [ringbuffer_read]; decide
  refine ⟨Reachable.read 10 _ _ _ _ (Reachable.write 10 _ _ _ _ _ h0 h1) h2, by decide, ?_⟩
  rw [write_wrap_blocks _ _ _ (by decide) (by decide) (by decide) (by decide)]; decide

/-- C9: capacity 4, `L = 2`, `M = 1`.  After writing 2 bytes and reading them
back, `head = tail = 2`; the write of 1 byte returns 0 and stores nothing, and
the read of 1 byte returns 0, where the claim has 1 and the byte written. -/
theorem C9_drained_buffer_accepts_nothing :
    ringbuffer_write false [1, 2] 2 fresh4 = Outcome.returned 2 drain_s1 ∧
      ringbuffer_read false 2 drain_s1 = Outcome.returned (2, [1, 2]) drain_s2 ∧
      ringbuffer_write false [9] 1 drain_s2 = Outcome.returned 0 drain_s3 ∧
      ringbuffer_read false 1 drain_s3 = Outcome.returned (0, []) drain_s4 := by
  refine ⟨?_, ?_, ?_, ?_⟩
  · rw [ringbuffer_write]; decide
  · rw [ringbuffer_read]; decide
  · rw [ringbuffer_write]; decide
  · rw [ringbuffer_read]; decide

/-- C10: capacity 6 with `head = 1`, `tail = 4` (reached by writing 4 bytes
and reading 1).  A write of 3 bytes issues `lock, unlock, lock, lock` and
blocks: the recursive call acquires the mutex that the outer call still
holds.  The same happens in a read that starts with `tail < head` and runs
past the end of the array: `lock, lock`. -/
theorem C10_recursion_locks_held_mutex :
    ringbuffer_write false [1, 2, 3, 4] 4 fresh6 = Outcome.returned 4 lock_s1 ∧
      ringbuffer_read false 1 lock_s1 = Outcome.returned (1, [1]) lock_s2 ∧
      ringbuffer_write false [7, 8, 9] 3 lock_s2 = Outcome.blocked lock_s3 ∧
      lock_s3.mutex = lock_s2.mutex ++ [.lock, .unlock, .lock, .lock] ∧
      lock_discipline false [.lock, .unlock, .lock, .lock] = false ∧
      held_after false [.lock, .unlock, .lock] = true ∧
      ringbuffer_read false 4 lock_r = Outcome.blocked lock_r2 ∧
      lock_r2.mutex = lock_r.mutex ++ [.lock, .lock] ∧
      lock_discipline false [.lock, .lock] = false := by
  refine ⟨?_, ?_, ?_, by decide, by decide, by decide, ?_, by decide, by decide⟩
  · rw [ringbuffer_write]; decide
  · rw [ringbuffer_read]; decide
  · rw [write_wrap_blocks _ _ _ (by decide) (by decide) (by decide) (by decide)]; decide
  · rw [read_wrap _ _ (by decide) (by decide) (by decide) (by decide)]; decide

/-- C12: capacity 10, `A = 1..5` (`L = 5`), `a = 2`, `B = 21, 22` (`n = 2`,
`L + n = 7 ≤ 10`).  After write(A) and read(2) the state has `head = 2`,
`tail = 5`; write(B, 2) takes the wrap path although `B` fits before the end
of the array: it resets tail to 0 and blocks in the recursive call, so it does
not return 2, tail is not 7, and the read of `L - a + n = 5` bytes is never
made. -/
theorem C12_interleaved_write_blocks :
    ringbuffer_write false [1, 2, 3, 4, 5] 5 fresh10 = Outcome.returned 5 clamp_s1 ∧
      ringbuffer_read false 2 clamp_s1 = Outcome.returned (2, [1, 2]) clamp_s2 ∧
      (∀ r rb, ringbuffer_write false [21, 22] 2 clamp_s2 ≠ Outcome.returned r rb) ∧
      (ringbuffer_write false [21, 22] 2 clamp_s2).state.offset_tail = 0 ∧
      (ringbuffer_write false [21, 22] 2 clamp_s2).state.offset_head = 2 ∧
      (ringbuffer_write false [21, 22] 2 clamp_s2).state.mutex =
        clamp_s2.mutex ++ [.lock, .unlock, .lock, .lock] := by
  have h := write_wrap_blocks [21, 22] 2 clamp_s2 (by decide) (by decide) (by decide) (by decide)
  refine ⟨?_, ?_, ?_, ?_, ?_, ?_⟩
  · rw [ringbuffer_write]; decide
  · rw [ringbuffer_read]; decide
  · intro r rb hr
    rw [h] at hr
    cases hr
  · rw [h]; rfl
  · rw [h]; rfl
  · rw [h]; rfl

/-- C16: in every state with `0 < head < tail ≤ capacity`, for every source
and every requested length, the write does not return: it copies
`capacity - tail` bytes of the source to `data[tail .. capacity)`, resets tail
to 0 and blocks in the recursive call of ringbuffer.c:114, which locks the
mutex held since ringbuffer.c:101.  No count is returned, `data[0 .. head)` is
not written, and tail is 0, not `head`. -/
theorem C16_wrap_write_blocks (data : List Byte) (size : Nat) (rb : Ringbuffer)
    (hs : rb.size < 4294967296) (hd : rb.data.length = rb.size)
    (hh : 0 < rb.offset_head) (hht : rb.offset_head < rb.offset_tail)
    (hts : rb.offset_tail ≤ rb.size) :
    ∃ b, ringbuffer_write false data size rb = Outcome.blocked b ∧
      b.size = rb.size ∧ b.offset_head = rb.offset_head ∧ b.offset_tail = 0 ∧
      b.mutex = rb.mutex ++ [MutexOp.lock, MutexOp.unlock, MutexOp.lock, MutexOp.lock] ∧
      (∀ i, i < rb.size - rb.offset_tail → i < data.length →
        b.data.getD (rb.offset_tail + i) 0 = data.getD i 0) ∧
      (∀ i, i < rb.offset_tail → b.data.getD i 0 = rb.data.getD i 0) := by
  refine ⟨_, write_wrap_blocks data size rb hh hht hts hs, rfl, rfl, rfl, rfl, ?_, ?_⟩
  · intro i hi _
    show (memcpy_to rb.data rb.offset_tail data (rb.size - rb.offset_tail)).getD
      (rb.offset_tail + i) 0 = data.getD i 0
    rw [getD_memcpy_to, if_pos (by omega), if_pos ⟨by omega, by omega⟩,
      Nat.add_sub_cancel_left]
  · intro i hi
    exact getD_memcpy_to_outside _ _ _ _ _ (by omega)

theorem C16_wrap_write_blocks_witness :
    ∃ b, ringbuffer_write false [21, 22, 23, 24, 25, 26, 27, 28] 0 clamp_s2
        = Outcome.blocked b ∧
      b.size = clamp_s2.size ∧ b.offset_head = clamp_s2.offset_head ∧ b.offset_tail = 0 ∧
      b.mutex = clamp_s2.mutex
        ++ [MutexOp.lock, MutexOp.unlock, MutexOp.lock, MutexOp.lock] ∧
      (∀ i, i < clamp_s2.size - clamp_s2.offset_tail →
        i < [21, 22, 23, 24, 25, 26, 27, 28].length →
        b.data.getD (clamp_s2.offset_tail + i) 0
          = ([21, 22, 23, 24, 25, 26, 27, 28] : List Byte).getD i 0) ∧
      (∀ i, i < clamp_s2.offset_tail → b.data.getD i 0 = clamp_s2.data.getD i 0) :=
  C16_wrap_write_blocks [21, 22, 23, 24, 25, 26, 27, 28] 0 clamp_s2
    (by decide) (by decide) (by decide) (by decide) (by decide)

/-- C20: a write that starts with `0 < head < tail` and a read that starts
with `tail < head` and runs past the end of the array do not terminate: each
makes its recursive call with the mutex held, and the call blocks for ever in
`ringbuffer_lock`. -/
theorem C20_recursive_call_never_returns :
    ringbuffer_write false [7, 8, 9] 2 lock_s2 = Outcome.blocked lock_s3 ∧
      ringbuffer_read false 3 lock_r = Outcome.blocked lock_r2 ∧
      (∀ (data : List Byte) (size : Nat) (rb : Ringbuffer),
        ringbuffer_write true data size rb =
          Outcome.blocked { rb with mutex := rb.mutex ++ [MutexOp.lock] }) := by
  refine ⟨?_, ?_, write_held⟩
  · rw [write_wrap_blocks _ _ _ (by decide) (by decide) (by decide) (by decide)]; decide
  · rw [read_wrap _ _ (by decide) (by decide) (by decide) (by decide)]; decide

/-! ## Claims about single calls that hold as stated -/

/-- C5: a read of more bytes than the capacity returns `RB_ERROR_CANT_READ`
(-1), stores no byte at the destination and leaves the whole buffer (capacity,
head, tail, data, and the mutex, which is not touched) as it was, in every
state. -/
theorem C5_oversized_read_rejected (size : Nat) (rb : Ringbuffer) (h : size > rb.size) :
    ringbuffer_read false size rb = Outcome.returned (-1, []) rb :=
  read_error false size rb h

theorem C5_oversized_read_rejected_witness :
    ringbuffer_read false 5 ⟨4, 1, 3, [], [10, 20, 30, 40]⟩
      = Outcome.returned (-1, []) ⟨4, 1, 3, [], [10, 20, 30, 40]⟩ :=
  C5_oversized_read_rejected 5 ⟨4, 1, 3, [], [10, 20, 30, 40]⟩ (by decide)

/-- C7: with `head = tail` (a fresh buffer in particular) and a request
`n ≤ capacity`, a read returns 0, stores no byte at the destination and
leaves capacity, head, tail and data unchanged: only the lock and the unlock
are added to the history of the mutex. -/
theorem C7_empty_read (size : Nat) (rb : Ringbuffer)
    (heq : rb.offset_head = rb.offset_tail) (hn : size ≤ rb.size) :
    ringbuffer_read false size rb =
      Outcome.returned (0, [])
        { size := rb.size
          offset_head := rb.offset_head
          offset_tail := rb.offset_tail
          mutex := rb.mutex ++ [MutexOp.lock, MutexOp.unlock]
          data := rb.data } :=
  read_empty size rb hn heq

theorem C7_empty_read_witness :
    ringbuffer_read false 3 (ringbuffer_create 16 (List.replicate 20 7) 20) =
      Outcome.returned (0, [])
        { size := (ringbuffer_create 16 (List.replicate 20 7) 20).size
          offset_head := (ringbuffer_create 16 (List.replicate 20 7) 20).offset_head
          offset_tail := (ringbuffer_create 16 (List.replicate 20 7) 20).offset_tail
          mutex := (ringbuffer_create 16 (List.replicate 20 7) 20).mutex
            ++ [MutexOp.lock, MutexOp.unlock]
          data := (ringbuffer_create 16 (List.replicate 20 7) 20).data } :=
  C7_empty_read 3 (ringbuffer_create 16 (List.replicate 20 7) 20) (by decide) (by decide)

/-! ## Construction -/

/-- C11: for a region size `s` (an `unsigned`) greater than the header size
`H`, `ringbuffer_create` returns a buffer with capacity `s - H`, head 0 and
tail 0; and for every region size, also one below `H`, the capacity is
`(s - H) mod 2^32`. -/
theorem C11_create (hdr : Nat) (buffer : List Byte) (size : Nat)
    (hs : size < 4294967296) (hh : hdr < size) :
    (ringbuffer_create hdr buffer size).size = size - hdr ∧
      (ringbuffer_create hdr buffer size).offset_head = 0 ∧
      (ringbuffer_create hdr buffer size).offset_tail = 0 ∧
      ∀ s : Nat, ((ringbuffer_create hdr buffer s).size : Int)
        = ((s : Int) - (hdr : Int)) % 4294967296 := by
  refine ⟨?_, rfl, rfl, ?_⟩
  · simp only [ringbuffer_create, usub]
    omega
  · intro s
    simp only [ringbuffer_create, usub]
    omega

theorem C11_create_witness :
    (ringbuffer_create 16 (List.replicate 26 0) 26).size = 26 - 16 ∧
      (ringbuffer_create 16 (List.replicate 26 0) 26).offset_head = 0 ∧
      (ringbuffer_create 16 (List.replicate 26 0) 26).offset_tail = 0 ∧
      ∀ s : Nat, ((ringbuffer_create 16 (List.replicate 26 0) s).size : Int)
        = ((s : Int) - ((16 : Nat) : Int)) % 4294967296 :=
  C11_create 16 (List.replicate 26 0) 26 (by decide) (by decide)

/-! ## Offsets of reachable states -/

/-- C8, as stated, fails: with capacity 4, a write of 4 bytes to the fresh
buffer returns and leaves `tail = 4`, and the read of 4 bytes that follows
returns and leaves `head = 4`; both states are reachable and break
`head < c`, `tail < c`. -/
theorem C8_offsets_reach_capacity :
    ringbuffer_write false [1, 2, 3, 4] 4 fresh4 = Outcome.returned 4 full_s1 ∧
      ringbuffer_read false 4 full_s1 = Outcome.returned (4, [1, 2, 3, 4]) full_s2 ∧
      Reachable 4 full_s1 ∧ ¬ full_s1.offset_tail < 4 ∧
      Reachable 4 full_s2 ∧ ¬ full_s2.offset_head < 4 := by
  have h0 : Reachable 4 fresh4 :=
    Reachable.create 16 (List.replicate 20 0) 20 (by decide) (by decide) (by decide)
  have h1 : ringbuffer_write false [1, 2, 3, 4] 4 fresh4 = Outcome.returned 4 full_s1 := by
    rw [ringbuffer_write]; decide
  have h2 : ringbuffer_read false 4 full_s1 = Outcome.returned (4, [1, 2, 3, 4]) full_s2 := by
    rw [ringbuffer_read]; decide
  have r1 : Reachable 4 full_s1 := Reachable.write 4 _ _ _ _ _ h0 h1
  exact ⟨h1, h2, r1, by decide, Reachable.read 4 _ _ _ _ r1 h2, by decide⟩

/-- The state in which a call of write ends, returned or blocked, keeps both
offsets within the capacity. -/
theorem write_state_bounds (data : List Byte) (size : Nat) (rb : Ringbuffer)
    (hw : WellFormed rb) :
    (ringbuffer_write false data size rb).state.offset_head ≤ rb.size ∧
      (ringbuffer_write false data size rb).state.offset_tail ≤ rb.size := by
  cases hres : ringbuffer_write false data size rb with
  | returned r rb2 =>
    obtain ⟨hsz, _, _, hht, hts⟩ := write_wellFormed data size rb r rb2 hw hres
    simp only [Outcome.state]
    omega
  | blocked b =>
    obtain ⟨hs, hd, hht, hts⟩ := hw
    by_cases hf : (write_space rb).free = 0
    · rw [write_full data size rb hf] at hres
      cases hres
    · by_cases hlt : rb.offset_head < rb.offset_tail
      · by_cases hh : rb.offset_head = 0
        · have hts2 : rb.offset_tail < rb.size := by
            rw [write_space_head_zero rb hh (by omega) hts hs] at hf
            simp only at hf; omega
          rw [write_head_zero_result data size rb hh (by omega) hts2 hs] at hres
          cases hres
        · rw [write_wrap_blocks data size rb (by omega) hlt hts hs] at hres
          cases hres
          simp only [Outcome.state]
          omega
      · have heq : rb.offset_head = rb.offset_tail := by omega
        by_cases hh : rb.offset_head = 0
        · have hpos : rb.size ≠ 0 := by
            rw [write_space_fresh rb hh (by omega)] at hf
            exact hf
          rw [write_fresh_result data size rb hh (by omega) hs hpos] at hres
          cases hres
        · exact absurd (by rw [write_space_caught_up rb hh heq]) hf

/-- A call of read made with `head ≤ tail` returns, and keeps both offsets
within the capacity. -/
theorem read_state_bounds (size : Nat) (rb : Ringbuffer) (hw : WellFormed rb) :
    (ringbuffer_read false size rb).state.offset_head ≤ rb.size ∧
      (ringbuffer_read false size rb).state.offset_tail ≤ rb.size := by
  cases hres : ringbuffer_read false size rb with
  | returned v rb2 =>
    obtain ⟨hsz, _, _, hht, hts⟩ := read_wellFormed size rb v rb2 hw hres
    simp only [Outcome.state]
    omega
  | blocked b =>
    obtain ⟨hs, hd, hht, hts⟩ := hw
    by_cases hn : size ≤ rb.size
    · by_cases heq : rb.offset_head = rb.offset_tail
      · rw [read_empty size rb hn heq] at hres
        cases hres
      · rw [read_linear size rb hn (by omega)] at hres
        cases hres
    · rw [read_error false size rb (by omega)] at hres
      cases hres

/-- C8, amended: for every capacity `c > 0`, every state reachable from
`ringbuffer_create` by calls of write and read has `head ≤ c` and
`tail ≤ c`; and so has the state in which the next call ends, whether it
returns or blocks. -/
theorem C8_offsets_within_capacity (c : Nat) (rb : Ringbuffer) (hc : 0 < c)
    (h : Reachable c rb) :
    rb.offset_head ≤ c ∧ rb.offset_tail ≤ c ∧
      (∀ (data : List Byte) (size : Nat),
        (ringbuffer_write false data size rb).state.offset_head ≤ c ∧
          (ringbuffer_write false data size rb).state.offset_tail ≤ c) ∧
      (∀ size : Nat,
        (ringbuffer_read false size rb).state.offset_head ≤ c ∧
          (ringbuffer_read false size rb).state.offset_tail ≤ c) := by
  have hw := reachable_wellFormed c rb h
  obtain ⟨hsz, _, _, hht, hts⟩ := reachable_wellFormed c rb h
  refine ⟨by omega, by omega, ?_, ?_⟩
  · intro data size
    have hb := write_state_bounds data size rb hw.2
    rw [hsz] at hb
    exact hb
  · intro size
    have hb := read_state_bounds size rb hw.2
    rw [hsz] at hb
    exact hb

/-- The state `reached4` is reachable: write 3 bytes, read 2. -/
theorem reached4_reachable : Reachable 4 reached4 := by
  have h0 : Reachable 4 fresh4 :=
    Reachable.create 16 (List.replicate 20 0) 20 (by decide) (by decide) (by decide)
  have h1 : ringbuffer_write false [1, 2, 3] 3 fresh4 = Outcome.returned 3 part_s1 := by
    rw [ringbuffer_write]; decide
  have h2 : ringbuffer_read false 2 part_s1 = Outcome.returned (2, [1, 2]) reached4 := by
    rw [ringbuffer_read]; decide
  exact Reachable.read 4 _ _ _ _ (Reachable.write 4 _ _ _ _ _ h0 h1) h2

theorem C8_offsets_within_capacity_witness :
    reached4.offset_head ≤ 4 ∧ reached4.offset_tail ≤ 4 ∧
      (∀ (data : List Byte) (size : Nat),
        (ringbuffer_write false data size reached4).state.offset_head ≤ 4 ∧
          (ringbuffer_write false data size reached4).state.offset_tail ≤ 4) ∧
      (∀ size : Nat,
        (ringbuffer_read false size reached4).state.offset_head ≤ 4 ∧
          (ringbuffer_read false size reached4).state.offset_tail ≤ 4) :=
  C8_offsets_within_capacity 4 reached4 (by decide) reached4_reachable

/-! ## The invariant of reachable states -/

/-- C17: every state reachable from `ringbuffer_create` by completed write
and read calls has `head ≤ tail ≤ capacity`; so, at the start of a call, the
guards of the two `head > tail` branches of `ringbuffer_read` are false for
every request, and the last case of the free-space computation of
`ringbuffer_write` is taken only with `head = tail`, never with
`head > tail`. -/
theorem C17_reachable_invariant (c : Nat) (rb : Ringbuffer) (h : Reachable c rb) :
    rb.size = c ∧ rb.offset_head ≤ rb.offset_tail ∧ rb.offset_tail ≤ c ∧
      (∀ size : Nat,
        ¬ (rb.offset_head > rb.offset_tail ∧ uadd rb.offset_head size ≤ rb.size) ∧
        ¬ (rb.offset_head > rb.offset_tail ∧ uadd rb.offset_head size > rb.size)) ∧
      (¬ (rb.offset_head = rb.offset_tail ∧ rb.offset_head = 0) →
        ¬ rb.offset_head < rb.offset_tail → rb.offset_head = rb.offset_tail) := by
  obtain ⟨hsz, _, _, hht, hts⟩ := reachable_wellFormed c rb h
  refine ⟨hsz, hht, by omega, ?_, ?_⟩
  · intro size
    constructor <;> (intro hc; omega)
  · intro _ hnlt
    omega

theorem C17_reachable_invariant_witness :
    reached4.size = 4 ∧ reached4.offset_head ≤ reached4.offset_tail ∧
      reached4.offset_tail ≤ 4 ∧
      (∀ size : Nat,
        ¬ (reached4.offset_head > reached4.offset_tail ∧
          uadd reached4.offset_head size ≤ reached4.size) ∧
        ¬ (reached4.offset_head > reached4.offset_tail ∧
          uadd reached4.offset_head size > reached4.size)) ∧
      (¬ (reached4.offset_head = reached4.offset_tail ∧ reached4.offset_head = 0) →
        ¬ reached4.offset_head < reached4.offset_tail →
        reached4.offset_head = reached4.offset_tail) :=
  C17_reachable_invariant 4 reached4 reached4_reachable

/-! ## Writes: the frame and the absorbing state -/

/-- C19: with `head ≤ tail ≤ capacity`, a write leaves capacity and head
unchanged and leaves every byte of the unread region `data[head .. tail)` as
it was; what it changes are data positions outside that region, and tail.
The buffer is the one the call leaves when it returns or, on the wrap path,
the one in which it blocks. -/
theorem C19_write_keeps_unread (src : List Byte) (size : Nat) (rb : Ringbuffer)
    (hs : rb.size < 4294967296) (hht : rb.offset_head ≤ rb.offset_tail)
    (hts : rb.offset_tail ≤ rb.size) :
    (ringbuffer_write false src size rb).state.size = rb.size ∧
      (ringbuffer_write false src size rb).state.offset_head = rb.offset_head ∧
      (ringbuffer_write false src size rb).state.data.length = rb.data.length ∧
      ∀ i, rb.offset_head ≤ i → i < rb.offset_tail →
        (ringbuffer_write false src size rb).state.data.getD i 0 = rb.data.getD i 0 := by
  by_cases hf : (write_space rb).free = 0
  · rw [write_full src size rb hf]
    exact ⟨rfl, rfl, rfl, fun _ _ _ => rfl⟩
  · by_cases hlt : rb.offset_head < rb.offset_tail
    · by_cases hh : rb.offset_head = 0
      · have hts2 : rb.offset_tail < rb.size := by
          rw [write_space_head_zero rb hh (by omega) hts hs] at hf
          simp only at hf; omega
        rw [write_head_zero_result src size rb hh (by omega) hts2 hs]
        refine ⟨rfl, rfl, length_memcpy_to _ _ _ _, ?_⟩
        intro i _ h2
        exact getD_memcpy_to_outside _ _ _ _ _ (by omega)
      · rw [write_wrap_blocks src size rb (by omega) hlt hts hs]
        refine ⟨rfl, rfl, length_memcpy_to _ _ _ _, ?_⟩
        intro i h1 h2
        exact getD_memcpy_to_outside _ _ _ _ _ (by omega)
    · have heq : rb.offset_head = rb.offset_tail := by omega
      by_cases hh : rb.offset_head = 0
      · have hpos : rb.size ≠ 0 := by
          rw [write_space_fresh rb hh (by omega)] at hf
          exact hf
        rw [write_fresh_result src size rb hh (by omega) hs hpos]
        refine ⟨rfl, rfl, length_memcpy_to _ _ _ _, ?_⟩
        intro i h1 h2
        omega
      · exact absurd (by rw [write_space_caught_up rb hh heq]) hf

theorem C19_write_keeps_unread_witness :
    (ringbuffer_write false [7, 8, 9] 3 lock_s2).state.size = lock_s2.size ∧
      (ringbuffer_write false [7, 8, 9] 3 lock_s2).state.offset_head = lock_s2.offset_head ∧
      (ringbuffer_write false [7, 8, 9] 3 lock_s2).state.data.length = lock_s2.data.length ∧
      ∀ i, lock_s2.offset_head ≤ i → i < lock_s2.offset_tail →
        (ringbuffer_write false [7, 8, 9] 3 lock_s2).state.data.getD i 0
          = lock_s2.data.getD i 0 :=
  C19_write_keeps_unread [7, 8, 9] 3 lock_s2 (by decide) (by decide) (by decide)

/-- A run that starts with `head = tail ≠ 0` transfers nothing. -/
theorem run_calls_caught_up (calls : List Call) :
    ∀ (rb : Ringbuffer) (t : Transfer), rb.offset_head = rb.offset_tail → rb.offset_head ≠ 0 →
      ∃ rb2, run_calls calls rb t = (t, Outcome.returned () rb2) ∧
        rb2.size = rb.size ∧ rb2.offset_head = rb.offset_head ∧
        rb2.offset_tail = rb.offset_tail ∧ rb2.data = rb.data := by
  induction calls with
  | nil =>
    intro rb t _ _
    exact ⟨rb, rfl, rfl, rfl, rfl, rfl⟩
  | cons call cs ih =>
    intro rb t heq hne
    cases call with
    | write src size =>
      simp only [run_calls]
      rw [write_caught_up_result src size rb heq hne]
      simp only [List.take_zero, List.append_nil]
      exact ih _ t heq hne
    | read size =>
      simp only [run_calls]
      by_cases hn : size ≤ rb.size
      · rw [read_empty size rb hn heq]
        simp only [List.append_nil]
        exact ih _ t heq hne
      · rw [read_error false size rb (by omega)]
        simp only [List.append_nil]
        exact ih rb t heq hne

/-- C15: in a state with `head = tail ≠ 0`, every write returns 0 and every
read of `n ≤ capacity` bytes returns 0 and delivers nothing, each leaving
capacity, head, tail and data unchanged; and every sequence of write and read
calls that starts there runs to its end without transferring a byte or
changing them. -/
theorem C15_absorbing_state (rb : Ringbuffer) (heq : rb.offset_head = rb.offset_tail)
    (hne : rb.offset_head ≠ 0) :
    (∀ (src : List Byte) (size : Nat),
        ringbuffer_write false src size rb =
          Outcome.returned 0
            { size := rb.size
              offset_head := rb.offset_head
              offset_tail := rb.offset_tail
              mutex := rb.mutex ++ [MutexOp.lock, MutexOp.unlock]
              data := rb.data }) ∧
      (∀ size : Nat, size ≤ rb.size →
        ringbuffer_read false size rb =
          Outcome.returned (0, [])
            { size := rb.size
              offset_head := rb.offset_head
              offset_tail := rb.offset_tail
              mutex := rb.mutex ++ [MutexOp.lock, MutexOp.unlock]
              data := rb.data }) ∧
      (∀ (calls : List Call) (t : Transfer),
        ∃ rb2, run_calls calls rb t = (t, Outcome.returned () rb2) ∧
          rb2.size = rb.size ∧ rb2.offset_head = rb.offset_head ∧
          rb2.offset_tail = rb.offset_tail ∧ rb2.data = rb.data) := by
  refine ⟨?_, ?_, ?_⟩
  · intro src size
    exact write_caught_up_result src size rb heq hne
  · intro size hn
    exact read_empty size rb hn heq
  · intro calls t
    exact run_calls_caught_up calls rb t heq hne

theorem C15_absorbing_state_witness :
    (∀ (src : List Byte) (size : Nat),
        ringbuffer_write false src size drain_s2 =
          Outcome.returned 0
            { size := drain_s2.size
              offset_head := drain_s2.offset_head
              offset_tail := drain_s2.offset_tail
              mutex := drain_s2.mutex ++ [MutexOp.lock, MutexOp.unlock]
              data := drain_s2.data }) ∧
      (∀ size : Nat, size ≤ drain_s2.size →
        ringbuffer_read false size drain_s2 =
          Outcome.returned (0, [])
            { size := drain_s2.size
              offset_head := drain_s2.offset_head
              offset_tail := drain_s2.offset_tail
              mutex := drain_s2.mutex ++ [MutexOp.lock, MutexOp.unlock]
              data := drain_s2.data }) ∧
      (∀ (calls : List Call) (t : Transfer),
        ∃ rb2, run_calls calls drain_s2 t = (t, Outcome.returned () rb2) ∧
          rb2.size = drain_s2.size ∧ rb2.offset_head = drain_s2.offset_head ∧
          rb2.offset_tail = drain_s2.offset_tail ∧ rb2.data = drain_s2.data) :=
  C15_absorbing_state drain_s2 (by decide) (by decide)

/-! ## Reads on each geometry -/

/-- C6, as stated, fails.  With capacity `2^32 - 1`, `head = 0`,
`tail = capacity`, the read of `n = capacity` bytes returns `-1`, the error
code: the count does not fit the `int` result.  With capacity 5, `head = 3`,
`tail = 1`, the read of 4 bytes enters the wrap continuation and blocks in the
recursive call: it has no result. -/
theorem C6_read_result_out_of_range :
    huge_full.offset_head ≤ huge_full.size ∧ huge_full.offset_tail ≤ huge_full.size ∧
      ringbuffer_read false 4294967295 huge_full =
        Outcome.returned (RB_ERROR_CANT_READ, memcpy_from region_4g 0 4294967295) huge_full2 ∧
      ringbuffer_read false 4 lock_r = Outcome.blocked lock_r2 := by
  refine ⟨by decide, by decide, ?_, ?_⟩
  · have hmin : min 4294967295 (huge_full.offset_tail - huge_full.offset_head) = 4294967295 := by
      decide
    have hint : to_int 4294967295 = RB_ERROR_CANT_READ := by decide
    rw [read_linear_result 4294967295 huge_full (by decide) (by decide) (by decide) (by decide),
      hmin, hint]
    simp only [huge_full, huge_full2, Nat.zero_add, List.nil_append]
  · rw [read_wrap _ _ (by decide) (by decide) (by decide) (by decide)]; decide

/-- C6, amended (`n < 2^31`, the wrap continuation left out): with
`head ≤ capacity`, `tail ≤ capacity` and a request `n ≤ capacity`,
`n < 2^31`, that does not enter the wrap continuation (not both `tail < head`
and `head + n > capacity`), a read returns a result `r` that is not the error
code and satisfies `0 ≤ r ≤ n`. -/
theorem C6_read_fails_only_oversized (size : Nat) (rb : Ringbuffer)
    (hs : rb.size < 4294967296) (hn31 : size < 2147483648)
    (hh : rb.offset_head ≤ rb.size) (ht : rb.offset_tail ≤ rb.size) (hn : size ≤ rb.size)
    (hnw : ¬ (rb.offset_tail < rb.offset_head ∧ rb.size < rb.offset_head + size)) :
    ∃ r out rb2, ringbuffer_read false size rb = Outcome.returned (r, out) rb2 ∧
      r ≠ RB_ERROR_CANT_READ ∧ 0 ≤ r ∧ r ≤ (size : Int) := by
  have key : ∃ (k : Nat) (out : List Byte) (rb2 : Ringbuffer),
      ringbuffer_read false size rb = Outcome.returned ((k : Int), out) rb2 ∧ k ≤ size := by
    by_cases heq : rb.offset_head = rb.offset_tail
    · exact ⟨0, _, _, read_empty size rb hn heq, Nat.zero_le _⟩
    · by_cases hlt : rb.offset_head < rb.offset_tail
      · have hr := read_linear size rb hn hlt
        have hv : usub rb.offset_tail rb.offset_head = rb.offset_tail - rb.offset_head := by
          simp only [usub]; omega
        by_cases hc : uadd rb.offset_head size ≤ rb.offset_tail
        · simp only [if_pos hc] at hr
          rw [to_int_of_lt size hn31] at hr
          exact ⟨size, _, _, hr, Nat.le_refl _⟩
        · simp only [if_neg hc, hv] at hr
          simp only [uadd] at hc
          rw [to_int_of_lt _ (by omega)] at hr
          exact ⟨rb.offset_tail - rb.offset_head, _, _, hr, by omega⟩
      · have hgt : rb.offset_head > rb.offset_tail := by omega
        have hfit : uadd rb.offset_head size ≤ rb.size := by
          simp only [uadd]; omega
        have hr := read_fit size rb hn hgt hfit
        rw [to_int_of_lt size hn31] at hr
        exact ⟨size, _, _, hr, Nat.le_refl _⟩
  obtain ⟨k, out, rb2, hk, hkle⟩ := key
  refine ⟨(k : Int), out, rb2, hk, ?_, ?_, ?_⟩
  · simp only [RB_ERROR_CANT_READ]; omega
  · omega
  · omega

theorem C6_read_fails_only_oversized_witness :
    ∃ r out rb2, ringbuffer_read false 2 clamp_s1 = Outcome.returned (r, out) rb2 ∧
      r ≠ RB_ERROR_CANT_READ ∧ 0 ≤ r ∧ r ≤ ((2 : Nat) : Int) :=
  C6_read_fails_only_oversized 2 clamp_s1
    (by decide) (by decide) (by decide) (by decide) (by decide) (by decide)

/-- C13, as stated, fails: with capacity `2^32 - 1`, `head = 2^32 - 6`,
`tail = capacity` and `n = 10`, the sum `head + n` of ringbuffer.c:137 wraps
to 4, the request is not clamped to the 5 unread bytes, and the read returns
10 and leaves `head = 4`, where the claim has `r = min(10, 5) = 5` and
`head = head + 5`. -/
theorem C13_read_not_clamped_when_sum_wraps :
    huge_last5.offset_head < huge_last5.offset_tail ∧
      huge_last5.offset_tail ≤ huge_last5.size ∧
      min 10 (huge_last5.offset_tail - huge_last5.offset_head) = 5 ∧
      ringbuffer_read false 10 huge_last5 =
        Outcome.returned (10, memcpy_from region_4g 4294967290 10) huge_last5b := by
  refine ⟨by decide, by decide, by decide, ?_⟩
  have h1 : (if uadd huge_last5.offset_head 10 ≤ huge_last5.offset_tail then 10
      else usub huge_last5.offset_tail huge_last5.offset_head) = 10 := by decide
  have h2 : uadd huge_last5.offset_head 10 = 4 := by decide
  have h3 : (if 4 < huge_last5.offset_tail then huge_last5.offset_tail else 4)
      = 4294967295 := by decide
  have h4 : to_int 10 = 10 := by decide
  rw [read_linear 10 huge_last5 (by decide) (by decide), h1, h2, h3, h4]
  simp only [huge_last5, huge_last5b, List.nil_append]

/-- C13, amended (the sum `head + n` below `2^32`, the count below `2^31`):
with `head < tail ≤ capacity`, a data region of `capacity` bytes and a request
`n ≤ capacity` such that `head + n < 2^32` and `min(n, tail - head) < 2^31`
(both hold when the capacity is below `2^31`), a read returns
`r = min(n, tail - head)`, delivers exactly `data[head .. head + r)`, leaves
`head + r` in head, and leaves tail, capacity and data unchanged. -/
theorem C13_read_non_wrapped (size : Nat) (rb : Ringbuffer)
    (hd : rb.data.length = rb.size) (hlt : rb.offset_head < rb.offset_tail)
    (hts : rb.offset_tail ≤ rb.size) (hn : size ≤ rb.size)
    (hsum : rb.offset_head + size < 4294967296)
    (hint : min size (rb.offset_tail - rb.offset_head) < 2147483648) :
    ringbuffer_read false size rb =
      Outcome.returned
        (((min size (rb.offset_tail - rb.offset_head) : Nat) : Int),
          (rb.data.drop rb.offset_head).take (min size (rb.offset_tail - rb.offset_head)))
        { size := rb.size
          offset_head := rb.offset_head + min size (rb.offset_tail - rb.offset_head)
          offset_tail := rb.offset_tail
          mutex := rb.mutex ++ [MutexOp.lock, MutexOp.unlock]
          data := rb.data } := by
  rw [read_linear_result size rb hlt hts hn hsum, to_int_of_lt _ hint,
    memcpy_from_eq_take_drop _ _ _ (by omega)]

theorem C13_read_non_wrapped_witness :
    ringbuffer_read false 2 clamp_s1 =
      Outcome.returned
        (((min 2 (clamp_s1.offset_tail - clamp_s1.offset_head) : Nat) : Int),
          (clamp_s1.data.drop clamp_s1.offset_head).take
            (min 2 (clamp_s1.offset_tail - clamp_s1.offset_head)))
        { size := clamp_s1.size
          offset_head := clamp_s1.offset_head
            + min 2 (clamp_s1.offset_tail - clamp_s1.offset_head)
          offset_tail := clamp_s1.offset_tail
          mutex := clamp_s1.mutex ++ [MutexOp.lock, MutexOp.unlock]
          data := clamp_s1.data } :=
  C13_read_non_wrapped 2 clamp_s1 (by decide) (by decide) (by decide) (by decide) (by decide)
    (by decide)

/-- C14, as stated, fails.  With capacity 5, `head = 3`, `tail = 1`, the read
of 4 bytes (`min(4, 5 - 3 + 1) = 3`) enters the wrap continuation and blocks
in the recursive call, returning nothing.  With capacity `2^32 - 1`,
`head = 2^32 - 2`, `tail = 0`, the sum `head + 10` of ringbuffer.c:148 wraps
to 8, and the read of 10 bytes returns 10 and leaves `head = 8`, where the
claim has `r = min(10, 1) = 1` and `head = 0`. -/
theorem C14_read_wrapped_blocks_or_overruns :
    lock_r.offset_tail < lock_r.offset_head ∧ lock_r.offset_head < lock_r.size ∧
      min 4 (lock_r.size - lock_r.offset_head + lock_r.offset_tail) = 3 ∧
      ringbuffer_read false 4 lock_r = Outcome.blocked lock_r2 ∧
      huge_wrapped.offset_tail < huge_wrapped.offset_head ∧
      huge_wrapped.offset_head < huge_wrapped.size ∧
      min 10 (huge_wrapped.size - huge_wrapped.offset_head + huge_wrapped.offset_tail) = 1 ∧
      ringbuffer_read false 10 huge_wrapped =
        Outcome.returned (10, memcpy_from region_4g 4294967294 10) huge_wrapped2 := by
  refine ⟨by decide, by decide, by decide, ?_, by decide, by decide, by decide, ?_⟩
  · rw [read_wrap _ _ (by decide) (by decide) (by decide) (by decide)]; decide
  · have h1 : (if uadd huge_wrapped.offset_head 10 < huge_wrapped.size
        then uadd huge_wrapped.offset_head 10 else 0) = 8 := by decide
    have h4 : to_int 10 = 10 := by decide
    rw [read_fit 10 huge_wrapped (by decide) (by decide) (by decide)]
    simp only [h1, h4]
    simp only [huge_wrapped, huge_wrapped2, List.nil_append]

/-- C14, amended (the request ends before the end of the array, `n < 2^31`):
with `tail < head < capacity`, a data region of `capacity` bytes and a request
`n < 2^31` with `head + n ≤ capacity`, a read returns
`r = min(n, (capacity - head) + tail)`, which is `n`, delivers the first `r`
bytes of `data[head .. capacity)` followed by `data[0 .. tail)`, leaves
`(head + r) mod capacity` in head, and leaves tail, capacity and data
unchanged. -/
theorem C14_read_wrapped (size : Nat) (rb : Ringbuffer) (hs : rb.size < 4294967296)
    (hd : rb.data.length = rb.size) (hgt : rb.offset_tail < rb.offset_head)
    (hh : rb.offset_head < rb.size) (hfit : rb.offset_head + size ≤ rb.size)
    (hn31 : size < 2147483648) :
    ringbuffer_read false size rb =
      Outcome.returned
        (((min size (rb.size - rb.offset_head + rb.offset_tail) : Nat) : Int),
          (rb.data.drop rb.offset_head ++ rb.data.take rb.offset_tail).take
            (min size (rb.size - rb.offset_head + rb.offset_tail)))
        { size := rb.size
          offset_head :=
            (rb.offset_head + min size (rb.size - rb.offset_head + rb.offset_tail)) % rb.size
          offset_tail := rb.offset_tail
          mutex := rb.mutex ++ [MutexOp.lock, MutexOp.unlock]
          data := rb.data } := by
  have hu : uadd rb.offset_head size = rb.offset_head + size := by
    simp only [uadd]; omega
  have hlen : (rb.data.drop rb.offset_head).length = rb.size - rb.offset_head := by
    rw [List.length_drop, hd]
  have hmin : min size (rb.size - rb.offset_head + rb.offset_tail) = size := by omega
  have hmod : (if rb.offset_head + size < rb.size then rb.offset_head + size else 0)
      = (rb.offset_head + size) % rb.size := by
    by_cases hlt : rb.offset_head + size < rb.size
    · rw [if_pos hlt, Nat.mod_eq_of_lt hlt]
    · have heq : rb.offset_head + size = rb.size := by omega
      rw [if_neg hlt, heq, Nat.mod_self]
  rw [read_fit size rb (by omega) hgt (by rw [hu]; exact hfit), hmin, hu, hmod,
    to_int_of_lt size hn31, memcpy_from_eq_take_drop _ _ _ (by omega),
    List.take_append_of_le_length (by rw [hlen]; omega)]

theorem C14_read_wrapped_witness :
    ringbuffer_read false 2 lock_r =
      Outcome.returned
        (((min 2 (lock_r.size - lock_r.offset_head + lock_r.offset_tail) : Nat) : Int),
          (lock_r.data.drop lock_r.offset_head ++ lock_r.data.take lock_r.offset_tail).take
            (min 2 (lock_r.size - lock_r.offset_head + lock_r.offset_tail)))
        { size := lock_r.size
          offset_head :=
            (lock_r.offset_head + min 2 (lock_r.size - lock_r.offset_head + lock_r.offset_tail))
              % lock_r.size
          offset_tail := lock_r.offset_tail
          mutex := lock_r.mutex ++ [MutexOp.lock, MutexOp.unlock]
          data := lock_r.data } :=
  C14_read_wrapped 2 lock_r (by decide) (by decide) (by decide) (by decide) (by decide)
    (by decide)
/-- C18, as stated, fails.  On the fresh buffer of capacity `2^32 - 1`, write
`2^32 - 1` bytes, read `2^31 - 3` bytes twice (5 bytes stay unread), then read
10 bytes: the sum `head + 10` of ringbuffer.c:137 wraps, the request is not
clamped, and the read returns 10 and delivers 10 bytes.  Every call returns,
the run is admissible, and the reads deliver `2^32 + 4` bytes where the writes
accepted `2^32 - 1`: the delivered bytes are no leading part of the accepted
ones. -/
theorem C18_reads_deliver_more_than_written :
    huge_s0.offset_head = 0 ∧ huge_s0.offset_tail = 0 ∧
      huge_s0.data.length = huge_s0.size ∧ source_4g.length = 4294967295 ∧
      ringbuffer_write false source_4g 4294967295 huge_s0
        = Outcome.returned 4294967295 huge_w1 ∧
      ringbuffer_read false 2147483645 huge_w1
        = Outcome.returned (2147483645, memcpy_from written_4g 0 2147483645) huge_w2 ∧
      ringbuffer_read false 2147483645 huge_w2
        = Outcome.returned (2147483645, memcpy_from written_4g 2147483645 2147483645) huge_w3 ∧
      ringbuffer_read false 10 huge_w3
        = Outcome.returned (10, memcpy_from written_4g 4294967290 10) huge_w4 ∧
      calls_admissible huge_run huge_s0 ∧
      (run_calls huge_run huge_s0 { accepted := [], delivered := [] }).2
        = Outcome.returned () huge_w4 ∧
      (run_calls huge_run huge_s0 { accepted := [], delivered := [] }).1.accepted.length
        = 4294967295 ∧
      (run_calls huge_run huge_s0 { accepted := [], delivered := [] }).1.delivered.length
        = 4294967300 ∧
      ¬ ∃ rest, (run_calls huge_run huge_s0 { accepted := [], delivered := [] }).1.accepted =
        (run_calls huge_run huge_s0 { accepted := [], delivered := [] }).1.delivered ++ rest := by
  have hsrc : source_4g.length = 4294967295 := by
    simp only [source_4g, List.length_replicate]
  have h1 : ringbuffer_write false source_4g 4294967295 huge_s0
      = Outcome.returned 4294967295 huge_w1 := by
    have hmin : min 4294967295 huge_s0.size = 4294967295 := by decide
    rw [write_fresh_result source_4g 4294967295 huge_s0 rfl rfl (by decide) (by decide), hmin]
    simp only [huge_s0, huge_w1, written_4g, List.nil_append]
  have hint : to_int 2147483645 = 2147483645 := by decide
  have h2 : ringbuffer_read false 2147483645 huge_w1
      = Outcome.returned (2147483645, memcpy_from written_4g 0 2147483645) huge_w2 := by
    have hmin : min 2147483645 (huge_w1.offset_tail - huge_w1.offset_head) = 2147483645 := by
      decide
    rw [read_linear_result 2147483645 huge_w1 (by decide) (by decide) (by decide) (by decide),
      hmin, hint]
    simp only [huge_w1, huge_w2, Nat.zero_add, List.cons_append, List.nil_append]
  have h3 : ringbuffer_read false 2147483645 huge_w2
      = Outcome.returned (2147483645, memcpy_from written_4g 2147483645 2147483645)
          huge_w3 := by
    have hmin : min 2147483645 (huge_w2.offset_tail - huge_w2.offset_head) = 2147483645 := by
      decide
    have hsum : huge_w2.offset_head + 2147483645 = 4294967290 := by decide
    rw [read_linear_result 2147483645 huge_w2 (by decide) (by decide) (by decide) (by decide),
      hmin, hint, hsum]
    simp only [huge_w2, huge_w3, List.cons_append, List.nil_append]
  have h4 : ringbuffer_read false 10 huge_w3
      = Outcome.returned (10, memcpy_from written_4g 4294967290 10) huge_w4 := by
    have e1 : (if uadd huge_w3.offset_head 10 ≤ huge_w3.offset_tail then 10
        else usub huge_w3.offset_tail huge_w3.offset_head) = 10 := by decide
    have e2 : uadd huge_w3.offset_head 10 = 4 := by decide
    have e3 : (if 4 < huge_w3.offset_tail then huge_w3.offset_tail else 4)
        = 4294967295 := by decide
    have e4 : to_int 10 = 10 := by decide
    rw [read_linear 10 huge_w3 (by decide) (by decide), e1, e2, e3, e4]
    simp only [huge_w3, huge_w4, List.cons_append, List.nil_append]
  have hrun : run_calls huge_run huge_s0 { accepted := [], delivered := [] } =
      ({ accepted := [] ++ source_4g.take 4294967295
         delivered := (([] ++ memcpy_from written_4g 0 2147483645)
            ++ memcpy_from written_4g 2147483645 2147483645)
            ++ memcpy_from written_4g 4294967290 10 },
        Outcome.returned () huge_w4) := by
    rw [huge_run, run_calls_write_returned _ _ _ _ _ _ _ h1,
      run_calls_read_returned _ _ _ _ _ _ h2, run_calls_read_returned _ _ _ _ _ _ h3,
      run_calls_read_returned _ _ _ _ _ _ h4, run_calls_nil]
  have hacc : (run_calls huge_run huge_s0
      { accepted := [], delivered := [] }).1.accepted.length = 4294967295 := by
    rw [hrun]
    show ([] ++ source_4g.take 4294967295).length = 4294967295
    rw [List.nil_append, List.length_take, hsrc, Nat.min_self]
  have hdel : (run_calls huge_run huge_s0
      { accepted := [], delivered := [] }).1.delivered.length = 4294967300 := by
    rw [hrun]
    show ((([] ++ memcpy_from written_4g 0 2147483645)
      ++ memcpy_from written_4g 2147483645 2147483645)
      ++ memcpy_from written_4g 4294967290 10).length = 4294967300
    rw [List.nil_append, List.length_append, List.length_append, length_memcpy_from,
      length_memcpy_from, length_memcpy_from]
  refine ⟨rfl, rfl, ?_, hsrc, h1, h2, h3, h4, ?_, ?_, hacc, hdel, ?_⟩
  · simp only [huge_s0, region_4g, List.length_replicate]
  · rw [huge_run, calls_admissible_write_returned _ _ _ _ _ _ h1,
      calls_admissible_read_returned _ _ _ _ _ h2, calls_admissible_read_returned _ _ _ _ _ h3,
      calls_admissible_read_returned _ _ _ _ _ h4, hsrc]
    refine ⟨Nat.le_refl _, by decide, by decide, by decide, ?_⟩
    simp only [calls_admissible]
  · rw [hrun]
  · rintro ⟨rest, hrest⟩
    have hlen := congrArg List.length hrest
    rw [List.length_append, hacc, hdel] at hlen
    omega

/-- C18, amended (capacity at most `2^31`): for every sequence of write and
read calls applied to a buffer with `head = tail = 0` (as `ringbuffer_create`
leaves it) of capacity at most `2^31`, each call made when the one before has
returned, each write that returns given a source at least as long as the count
it returns and each read a request of at most the capacity, the bytes
delivered by the reads that returned, in call order, are a leading part of the
bytes accepted by the writes that returned (the first `r` source bytes of each
write, `r` its return value), in call order. -/
theorem C18_fifo_prefix (rb : Ringbuffer) (calls : List Call)
    (hh : rb.offset_head = 0) (ht : rb.offset_tail = 0) (hd : rb.data.length = rb.size)
    (hs : rb.size ≤ 2147483648) (hadm : calls_admissible calls rb) :
    ∃ rest, (run_calls calls rb { accepted := [], delivered := [] }).1.accepted =
      (run_calls calls rb { accepted := [], delivered := [] }).1.delivered ++ rest := by
  have hw : WellFormed rb := ⟨by omega, hd, by omega, by omega⟩
  have h0 : Fifo rb { accepted := [], delivered := [] } := by
    refine ⟨⟨[], rfl⟩, fun _ => ?_⟩
    simp [unread, hh, ht, memcpy_from]
  exact fifo_run calls rb _ hw hs h0 hadm

theorem C18_fifo_prefix_witness :
    ∃ rest,
      (run_calls [Call.write [1, 2] 2, Call.read 2, Call.write [9] 1, Call.read 1] fresh4
          { accepted := [], delivered := [] }).1.accepted =
        (run_calls [Call.write [1, 2] 2, Call.read 2, Call.write [9] 1, Call.read 1] fresh4
          { accepted := [], delivered := [] }).1.delivered ++ rest := by
  have h1 : ringbuffer_write false [1, 2] 2 fresh4 = Outcome.returned 2 drain_s1 := by
    rw [ringbuffer_write]; decide
  have h2 : ringbuffer_read false 2 drain_s1 = Outcome.returned (2, [1, 2]) drain_s2 := by
    rw [ringbuffer_read]; decide
  have h3 : ringbuffer_write false [9] 1 drain_s2 = Outcome.returned 0 drain_s3 := by
    rw [ringbuffer_write]; decide
  have h4 : ringbuffer_read false 1 drain_s3 = Outcome.returned (0, []) drain_s4 := by
    rw [ringbuffer_read]; decide
  exact C18_fifo_prefix fresh4 [Call.write [1, 2] 2, Call.read 2, Call.write [9] 1, Call.read 1]
    (by decide) (by decide) (by decide) (by decide)
    (by
      simp only [calls_admissible, h1, h2, h3, h4]
      decide)

end Ringbuf
